import Mathlib

/-!
Verification development for the macro-resolution and macro-extraction
refactoring core of a language server for Galaxy tool XML documents.

The embedding models the two source modules:

* `services/tools/macros.py` — the symbol resolver
  (`MacroDefinitionsProvider.load_macro_definitions` and helpers,
  `ToolMacroDefinitions.go_to_import_definition`);
* `services/tools/refactor.py` — the edit synthesizer
  (`RefactorMacrosService`, `RefactoringService`).

External collaborators (the XML parser and document model, the workspace
document store, the formatting service, `pathlib`/`urllib` path handling
and the `lxml` fragment parser) are not part of the two source modules;
they are modelled as explicit fields of an `Env` record and as data
carried by the `XmlDocument` record, following the collaborator contracts
stated in the specification.  Python `dict`s are modelled as
insertion-ordered association lists (`Dict`), Python attribute errors on
`None` values are modelled with `Except String`.
-/

namespace GLS

/-- A zero-based text position (`pygls` `Position`). -/
structure Position where
  line : Nat
  character : Nat
  deriving DecidableEq

/-- A half-open text range (`pygls` `Range`). -/
structure Range where
  start : Position
  «end» : Position
  deriving DecidableEq

/-- A document location (`pygls` `Location`). -/
structure Location where
  uri : String
  range : Range
  deriving DecidableEq

/-- `TokenDefinition` from `macros.py`. -/
structure TokenDefinition where
  name : String
  location : Location
  deriving DecidableEq

/-- An element of a parsed XML document, restricted to the queries the two
source modules make of the document-model collaborator: `get_attribute(NAME)`
(optional), `get_element_name_range` and `get_content(source)` (optional). -/
structure XmlElement where
  nameAttr : Option String
  nameRange : Range
  content : Option String
  deriving DecidableEq

/-- The answers the document-model collaborator gives about one structural
element of a tool document: `get_position_after_last_child`,
`get_position_before_first_child` and `get_position_after`. -/
structure ToolElementInfo where
  positionAfterLastChild : Position
  positionBeforeFirstChild : Position
  positionAfter : Position
  deriving DecidableEq

/-- Modelled from the spec: a parsed XML document (`XmlDocument`), reduced to
the collaborator queries the two source modules perform.  The parser
collaborator is error tolerant and never raises: a document whose parse
failed (`parseFailed`) exposes no elements, so it contributes no tokens and
no imports.  `source` is the raw document text, `tokenElements` and `importElements`
are the answers of `find_all_elements_with_name` for the two tags queried,
`root`/`rootNameRange` the root element and its name range,
`positionAfterLastChildOfRoot` the collaborator's insertion point after the
root's last child, `textInRange` and `lineIndentation` the text queries, and
`macrosElement`/`xrefElement`/`descriptionElement`/`toolContentRange` the
structural queries used through the `GalaxyToolXmlDocument` view. -/
structure XmlDocument where
  uri : String
  path : String
  source : String
  parseFailed : Bool
  tokenElements : List XmlElement
  importElements : List XmlElement
  root : Option XmlElement
  rootNameRange : Option Range
  positionAfterLastChildOfRoot : Position
  textInRange : Range → String
  lineIndentation : Int → String
  macrosElement : Option ToolElementInfo
  xrefElement : Option ToolElementInfo
  descriptionElement : Option ToolElementInfo
  toolContentRange : Range

/-- A text document as returned by the workspace collaborator
(`workspace.get_document`): its uri and version. -/
structure WorkspaceDocument where
  uri : String
  version : Int
  deriving DecidableEq

/-- Modelled from the spec: the collaborator environment.  `fileExists`
models `pathlib.Path.exists`, `getParsedDocument` models fetching a document
from the workspace and parsing it (`workspace.get_document` followed by
`XmlDocumentParser().parse`, which never raises), `get_document` models
`workspace.get_document` for the refactoring module, `format_content` models
the formatting service, and `fragment_root_tag` models parsing a standalone
fragment with `lxml.etree.fromstring` (`none` models a raised parse error,
`some tag` the root tag of the parsed fragment). -/
structure Env where
  fileExists : String → Bool
  getParsedDocument : String → XmlDocument
  get_document : String → WorkspaceDocument
  format_content : String → String
  fragment_root_tag : String → Option String

/-- `MacroData` from `refactor.py`. -/
structure MacroData where
  name : String
  content : String
  deriving DecidableEq

/-- Insertion-ordered association list modelling a Python `dict`. -/
def Dict (α : Type) : Type := List (String × α)

instance : Membership (String × α) (Dict α) := inferInstanceAs (Membership _ (List _))

instance [DecidableEq α] : DecidableEq (Dict α) := inferInstanceAs (DecidableEq (List _))

/-- Python `d[k]` as an option (`d.get(k)`): first binding of the key. -/
def dictGet (d : Dict α) (k : String) : Option α :=
  match d with
  | [] => none
  | (k', v) :: rest => if k' = k then some v else dictGet rest k

/-- Python `d[k] = v`: replace the binding in place if the key is present,
otherwise append it, preserving insertion order. -/
def dictInsert (d : Dict α) (k : String) (v : α) : Dict α :=
  match d with
  | [] => [(k, v)]
  | (k', v') :: rest => if k' = k then (k', v) :: rest else (k', v') :: dictInsert rest k v

/-- Python `d.update(other)`: assign every binding of `other`, in order. -/
def dictUpdate (d other : Dict α) : Dict α :=
  match other with
  | [] => d
  | (k, v) :: rest => dictUpdate (dictInsert d k v) rest

/-- The keys of a dict, in insertion order. -/
def dictKeys (d : Dict α) : List String := d.map Prod.fst

/-- The values of a dict, in insertion order (Python `d.values()`). -/
def dictValues (d : Dict α) : List α := d.map Prod.snd

/-- `ImportedMacrosFile` from `macros.py`. -/
structure ImportedMacrosFile where
  file_name : String
  file_uri : Option String
  document : Option XmlDocument
  tokens : Dict TokenDefinition

/-- `ToolMacroDefinitions` from `macros.py`. -/
structure ToolMacroDefinitions where
  tool_document : XmlDocument
  imported_macros : Dict ImportedMacrosFile
  tokens : Dict TokenDefinition

/-- `pygls` `TextEdit`. -/
structure TextEdit where
  range : Range
  new_text : String
  deriving DecidableEq

/-- `pygls` `VersionedTextDocumentIdentifier`. -/
structure VersionedTextDocumentIdentifier where
  uri : String
  version : Int
  deriving DecidableEq

/-- `pygls` `TextDocumentEdit`. -/
structure TextDocumentEdit where
  text_document : VersionedTextDocumentIdentifier
  edits : List TextEdit
  deriving DecidableEq

/-- `pygls` `CreateFile` resource operation (its kind is always `create`). -/
structure CreateFile where
  uri : String
  deriving DecidableEq

/-- One entry of a `WorkspaceEdit.document_changes` list. -/
inductive DocumentChange where
  | createFile (c : CreateFile)
  | textDocumentEdit (e : TextDocumentEdit)
  deriving DecidableEq

/-- `pygls` `WorkspaceEdit`: either a `changes` mapping from uri to edits or
a `document_changes` list. -/
structure WorkspaceEdit where
  changes : Option (Dict (List TextEdit))
  document_changes : Option (List DocumentChange)

/-- `pygls` `CodeAction` (the kind is always `RefactorExtract` here). -/
structure CodeAction where
  title : String
  edit : WorkspaceEdit

/-- `pygls` `TextDocumentIdentifier`. -/
structure TextDocumentIdentifier where
  uri : String
  deriving DecidableEq

/-- `pygls` `CodeActionParams`, reduced to the fields the source reads. -/
structure CodeActionParams where
  text_document : TextDocumentIdentifier
  range : Range
  deriving DecidableEq

/-! ### Tag constants

Modelled from the spec: the tag constants for the reserved structural
elements (`galaxyls.services.tools.constants`). -/

def TOOL : String := "tool"

def MACROS : String := "macros"

def MACRO : String := "macro"

def XML : String := "xml"

def TOKEN : String := "token"

def IMPORT_TAG : String := "import"

def NAME : String := "name"

def DESCRIPTION : String := "description"

def XREF : String := "xref"

def DEFAULT_MACROS_FILENAME : String := "macros.xml"

/-! ### Path handling collaborators

Modelled from the spec: `pathlib` / `urllib` behaviour for the directory and
uri computations the two modules perform. -/

/-- `Path(p).parent`: the path with its last component removed. -/
def parentPath (p : String) : String :=
  match (p.data.reverse.dropWhile (fun c => c ≠ '/')) with
  | [] => "."
  | _ :: rest => String.mk rest.reverse

/-- `Path(p).as_uri()`. -/
def pathAsUri (p : String) : String := "file://" ++ p

/-- `urlparse(uri).path`: drop the `file://` scheme prefix. -/
def stripFileScheme (uri : String) : String :=
  if "file://".isPrefixOf uri then uri.drop 7 else uri

/-- Python `s.replace("@", "")`: remove every occurrence of the sigil
character from the string. -/
def removeSigil (s : String) : String := String.mk (s.data.filter (fun c => c ≠ '@'))

/-- Python `str.strip()` with no argument: remove leading and trailing
whitespace. -/
def pyStrip (s : String) : String :=
  String.mk (((s.data.dropWhile Char.isWhitespace).reverse.dropWhile
    Char.isWhitespace).reverse)

/-- Python `str.rstrip()` with no argument: remove trailing whitespace. -/
def pyRstrip (s : String) : String :=
  String.mk ((s.data.reverse.dropWhile Char.isWhitespace).reverse)

/-! ### The symbol resolver (`macros.py`) -/

/-- `XmlDocument.find_all_elements_with_name` restricted to the two tags the
source queries; a document whose parse failed exposes no elements. -/
def XmlDocument.find_all_elements_with_name (d : XmlDocument) (tag : String) : List XmlElement :=
  if d.parseFailed then []
  else if tag = TOKEN then d.tokenElements
  else if tag = IMPORT_TAG then d.importElements
  else []

/-- `XmlElement.get_content(source)`: the collaborator's answer is carried by
the element itself; the `source` argument is the raw document text passed by
the caller. -/
def XmlElement.get_content (e : XmlElement) (_source : String) : Option String := e.content

/-- The loop body of `_get_token_definitions`: scan the remaining
token-declaring elements, accumulating `rval`.  Accessing the `name`
attribute of an element that has none raises an `AttributeError` (Python
calls `.replace` on `None`). -/
def tokenDefsFrom (uri : String) : List XmlElement → Dict TokenDefinition →
    Except String (Dict TokenDefinition)
  | [], rval => .ok rval
  | element :: rest, rval =>
    match element.nameAttr with
    | none => .error "AttributeError: NoneType has no attribute replace"
    | some n =>
      tokenDefsFrom uri rest
        (dictInsert rval (removeSigil n)
          { name := removeSigil n
            location := { uri := uri, range := element.nameRange } })

/-- `MacroDefinitionsProvider._get_token_definitions`. -/
def _get_token_definitions (macros_xml : XmlDocument) : Except String (Dict TokenDefinition) :=
  tokenDefsFrom macros_xml.uri (macros_xml.find_all_elements_with_name TOKEN) []

/-- `MacroDefinitionsProvider._get_tool_directory`. -/
def _get_tool_directory (tool_xml : XmlDocument) : String := parentPath tool_xml.path

/-- `MacroDefinitionsProvider._load_macros_document`: fetch the document from
the workspace and parse it (the parse collaborator never raises). -/
def _load_macros_document (env : Env) (document_uri : String) : XmlDocument :=
  env.getParsedDocument document_uri

/-- The loop body of `_get_imported_macro_files_from_tool` for a single
`import` element: skip it when it has no (or empty) text content; otherwise
resolve the referenced path, loading and scanning the file when it exists and
recording an unresolved `ImportedMacrosFile` when it does not. -/
def processImport (env : Env) (tool_directory : String) (imp : XmlElement)
    (source : String) (macro_files : Dict ImportedMacrosFile) :
    Except String (Dict ImportedMacrosFile) :=
  match imp.get_content source with
  | none => .ok macro_files
  | some name =>
    if name = "" then .ok macro_files
    else
      let path := tool_directory ++ "/" ++ name
      if env.fileExists path then
        let file_uri := pathAsUri path
        let macros_document := _load_macros_document env file_uri
        match _get_token_definitions macros_document with
        | .error e => .error e
        | .ok tokens =>
          .ok (dictInsert macro_files name
            { file_name := name, file_uri := some file_uri
              document := some macros_document, tokens := tokens })
      else
        .ok (dictInsert macro_files name
          { file_name := name, file_uri := none, document := none, tokens := [] })

/-- The loop of `_get_imported_macro_files_from_tool` over the remaining
`import` elements. -/
def macroFilesFrom (env : Env) (tool_directory : String) (source : String) :
    List XmlElement → Dict ImportedMacrosFile → Except String (Dict ImportedMacrosFile)
  | [], macro_files => .ok macro_files
  | imp :: rest, macro_files =>
    match processImport env tool_directory imp source macro_files with
    | .error e => .error e
    | .ok macro_files' => macroFilesFrom env tool_directory source rest macro_files'

/-- `MacroDefinitionsProvider._get_imported_macro_files_from_tool`. -/
def _get_imported_macro_files_from_tool (env : Env) (tool_xml : XmlDocument) :
    Except String (Dict ImportedMacrosFile) :=
  macroFilesFrom env (_get_tool_directory tool_xml) tool_xml.source
    (tool_xml.find_all_elements_with_name IMPORT_TAG) []

/-- `MacroDefinitionsProvider.load_macro_definitions`: the tool's own token
scan, then the import resolution, then the aggregation that updates the
tool's token table with each import's tokens in encounter order. -/
def load_macro_definitions (env : Env) (tool_xml : XmlDocument) :
    Except String ToolMacroDefinitions :=
  match _get_token_definitions tool_xml with
  | .error e => .error e
  | .ok tokens =>
    match _get_imported_macro_files_from_tool env tool_xml with
    | .error e => .error e
    | .ok imported_macro_files =>
      .ok { tool_document := tool_xml
            imported_macros := imported_macro_files
            tokens :=
              (dictValues imported_macro_files).foldl
                (fun acc file => dictUpdate acc file.tokens) tokens }

/-- `ToolMacroDefinitions.go_to_import_definition`.  When the entry's
document is present its `file_uri` is present as well (both are set together
by the resolver), so the uri defaulting is never exercised. -/
def go_to_import_definition (defs : ToolMacroDefinitions) (file_name : String) :
    Option (List Location) :=
  match dictGet defs.imported_macros file_name with
  | none => none
  | some imported_macros =>
    match imported_macros.document with
    | none => none
    | some document =>
      if document.root.isSome then
        match document.rootNameRange with
        | some content_range =>
          some [{ uri := imported_macros.file_uri.getD "", range := content_range }]
        | none => none
      else none

/-- `ToolMacroDefinitions.get_token_definition`. -/
def get_token_definition (defs : ToolMacroDefinitions) (token : String) :
    Option TokenDefinition :=
  dictGet defs.tokens token

/-! ### The edit synthesizer (`refactor.py`) -/

/-- The `GalaxyToolXmlDocument` view over a parsed tool document. -/
structure GalaxyToolXmlDocument where
  xml_document : XmlDocument

/-- `GalaxyToolXmlDocument.from_xml_document`. -/
def GalaxyToolXmlDocument.from_xml_document (d : XmlDocument) : GalaxyToolXmlDocument := ⟨d⟩

/-- `GalaxyToolXmlDocument.find_element` for the three structural tags the
refactoring module queries. -/
def GalaxyToolXmlDocument.find_element (t : GalaxyToolXmlDocument) (tag : String) :
    Option ToolElementInfo :=
  if tag = MACROS then t.xml_document.macrosElement
  else if tag = XREF then t.xml_document.xrefElement
  else if tag = DESCRIPTION then t.xml_document.descriptionElement
  else none

/-- `GalaxyToolXmlDocument.get_macros_element`. -/
def GalaxyToolXmlDocument.get_macros_element (t : GalaxyToolXmlDocument) :
    Option ToolElementInfo :=
  t.find_element MACROS

/-- `GalaxyToolXmlDocument.get_content_range`; the module only queries it for
the `tool` root tag. -/
def GalaxyToolXmlDocument.get_content_range (t : GalaxyToolXmlDocument) (_tag : String) :
    Range :=
  t.xml_document.toolContentRange

/-- `RefactorMacrosService._apply_indent`. -/
def _apply_indent (text : String) (indent : String) : String :=
  indent ++ text.replace "\n" ("\n" ++ indent)

/-- `RefactorMacrosService._adapt_format`. -/
def _adapt_format (env : Env) (xml_document : XmlDocument) (insert_range : Range)
    (xml_text : String) (insert_in_new_line : Bool := true) : String :=
  let formatted_macro := pyRstrip (env.format_content xml_text)
  let reference_line : Int :=
    if insert_in_new_line then (insert_range.start.line : Int)
    else (insert_range.start.line : Int) - 1
  let indent := xml_document.lineIndentation reference_line
  let final_macro_text := _apply_indent formatted_macro indent
  if insert_in_new_line then "\n" ++ final_macro_text else final_macro_text

/-- `RefactorMacrosService._get_range_from_line_start`. -/
def _get_range_from_line_start (range : Range) : Range :=
  { start := { line := range.start.line, character := 0 }, «end» := range.«end» }

/-- `RefactorMacrosService._find_macros_insert_position`:  after the `xref`
section if present, else after the `description` section if present, else at
the start of the `tool` root's content. -/
def _find_macros_insert_position (tool : GalaxyToolXmlDocument) : Position :=
  match tool.find_element XREF with
  | some sectionInfo => sectionInfo.positionAfter
  | none =>
    match tool.find_element DESCRIPTION with
    | some sectionInfo => sectionInfo.positionAfter
    | none => (tool.get_content_range TOOL).start

/-- `RefactorMacrosService._edit_replace_range_with_macro_expand`. -/
def _edit_replace_range_with_macro_expand (tool : GalaxyToolXmlDocument)
    (macroData : MacroData) (range : Range) : TextEdit :=
  let indentation := tool.xml_document.lineIndentation (range.start.line : Int)
  { range := _get_range_from_line_start range
    new_text := indentation ++ "<expand macro=\"" ++ macroData.name ++ "\"/>" }

/-- `RefactorMacrosService._edit_create_import_macros_section`. -/
def _edit_create_import_macros_section (env : Env) (tool : GalaxyToolXmlDocument)
    (macros_file_name : String) : TextEdit :=
  let postn :=
    match tool.find_element MACROS with
    | some macros_element => macros_element.positionBeforeFirstChild
    | none => _find_macros_insert_position tool
  let macro_xml :=
    match tool.find_element MACROS with
    | some _ => "<import>" ++ macros_file_name ++ "</import>"
    | none => "<macros>\n<import>" ++ macros_file_name ++ "</import>\n</macros>"
  let insert_range : Range := { start := postn, «end» := postn }
  { range := insert_range
    new_text := _adapt_format env tool.xml_document insert_range macro_xml }

/-- `RefactorMacrosService._edit_create_with_macros_section`. -/
def _edit_create_with_macros_section (env : Env) (tool : GalaxyToolXmlDocument)
    (macroData : MacroData) : TextEdit :=
  let insert_position := _find_macros_insert_position tool
  let insert_range : Range := { start := insert_position, «end» := insert_position }
  let macro_xml :=
    "<macros>\n<xml name=\"" ++ macroData.name ++ "\">\n" ++ macroData.content
      ++ "\n</xml>\n</macros>"
  { range := insert_range
    new_text := _adapt_format env tool.xml_document insert_range macro_xml }

/-- `RefactorMacrosService._edit_add_macro_to_macros_section`; reading the
position after the last child of a missing macros element raises. -/
def _edit_add_macro_to_macros_section (env : Env) (tool : GalaxyToolXmlDocument)
    (macroData : MacroData) : Except String TextEdit :=
  match tool.get_macros_element with
  | none => .error "AttributeError: NoneType has no attribute"
  | some macros_element =>
    let insert_position := macros_element.positionAfterLastChild
    let insert_range : Range := { start := insert_position, «end» := insert_position }
    let macro_xml :=
      "<xml name=\"" ++ macroData.name ++ "\">\n" ++ macroData.content ++ "\n</xml>"
    .ok { range := insert_range
          new_text := _adapt_format env tool.xml_document insert_range macro_xml }

/-- `RefactorMacrosService._calculate_local_changes_for_macro`. -/
def _calculate_local_changes_for_macro (env : Env) (tool : GalaxyToolXmlDocument)
    (macroData : MacroData) (params : CodeActionParams) :
    Except String (Dict (List TextEdit)) :=
  let firstEdit : Except String TextEdit :=
    match tool.get_macros_element with
    | none => .ok (_edit_create_with_macros_section env tool macroData)
    | some _ => _edit_add_macro_to_macros_section env tool macroData
  match firstEdit with
  | .error e => .error e
  | .ok e1 =>
    .ok [(params.text_document.uri,
          [e1, _edit_replace_range_with_macro_expand tool macroData params.range])]

/-- `RefactorMacrosService._calculate_external_changes_for_macro`; reading
`.root` on the absent document of an unresolved import raises.  When the
document is present its `file_uri` is present as well (the resolver sets both
together), so the uri defaulting is never exercised. -/
def _calculate_external_changes_for_macro (env : Env) (tool : GalaxyToolXmlDocument)
    (macro_file_definition : ImportedMacrosFile) (macroData : MacroData)
    (params : CodeActionParams) : Except String (Dict (List TextEdit)) :=
  match macro_file_definition.document with
  | none => .error "AttributeError: NoneType has no attribute root"
  | some macros_xml_doc =>
    let insert_position := macros_xml_doc.positionAfterLastChildOfRoot
    let insert_range : Range := { start := insert_position, «end» := insert_position }
    let macro_xml :=
      "<xml name=\"" ++ macroData.name ++ "\">\n" ++ macroData.content ++ "\n</xml>"
    let final_macro_xml := _adapt_format env macros_xml_doc insert_range macro_xml
    let external_edit : TextEdit := { range := insert_range, new_text := final_macro_xml }
    .ok [(params.text_document.uri,
          [_edit_replace_range_with_macro_expand tool macroData params.range]),
         (macro_file_definition.file_uri.getD "", [external_edit])]

/-- `RefactorMacrosService._calculate_external_changes_for_macro_in_new_file`. -/
def _calculate_external_changes_for_macro_in_new_file (env : Env)
    (tool : GalaxyToolXmlDocument) (new_file_name : String) (macroData : MacroData)
    (params : CodeActionParams) : List DocumentChange :=
  let base_path := parentPath (stripFileScheme tool.xml_document.uri)
  let new_file_uri := pathAsUri (base_path ++ "/" ++ new_file_name)
  let xml_content :=
    "<macros>\n<xml name=\"" ++ macroData.name ++ "\">\n" ++ macroData.content
      ++ "\n</xml>\n</macros>"
  let final_xml_content := env.format_content xml_content
  let new_doc_insert_position : Position := { line := 0, character := 0 }
  let tool_document := env.get_document params.text_document.uri
  [DocumentChange.createFile { uri := new_file_uri },
   DocumentChange.textDocumentEdit
     { text_document := { uri := new_file_uri, version := 0 }
       edits := [{ range := { start := new_doc_insert_position
                              «end» := new_doc_insert_position }
                   new_text := final_xml_content }] },
   DocumentChange.textDocumentEdit
     { text_document := { uri := tool_document.uri, version := tool_document.version }
       edits := [_edit_create_import_macros_section env tool DEFAULT_MACROS_FILENAME,
                 _edit_replace_range_with_macro_expand tool macroData params.range] }]

/-- `RefactorMacrosService.create_extract_to_local_macro_actions`. -/
def create_extract_to_local_macro_actions (env : Env) (tool : GalaxyToolXmlDocument)
    (macroData : MacroData) (params : CodeActionParams) :
    Except String (List CodeAction) :=
  match _calculate_local_changes_for_macro env tool macroData params with
  | .error e => .error e
  | .ok changes =>
    .ok [{ title := "Extract to local macro"
           edit := { changes := some changes, document_changes := none } }]

/-- The loop of `create_extract_to_macros_file_actions` over the entries of
`imported_macros`, accumulating one code action per entry. -/
def strategyBActions (env : Env) (tool : GalaxyToolXmlDocument) (macroData : MacroData)
    (params : CodeActionParams) :
    List (String × ImportedMacrosFile) → List CodeAction → Except String (List CodeAction)
  | [], code_actions => .ok code_actions
  | (file_name, macro_file_definition) :: rest, code_actions =>
    match _calculate_external_changes_for_macro env tool macro_file_definition
        macroData params with
    | .error e => .error e
    | .ok changes =>
      strategyBActions env tool macroData params rest
        (code_actions ++
          [{ title := "Extract to macro in " ++ file_name
             edit := { changes := some changes, document_changes := none } }])

/-- `RefactorMacrosService.create_extract_to_macros_file_actions`. -/
def create_extract_to_macros_file_actions (env : Env) (tool : GalaxyToolXmlDocument)
    (macro_definitions : ToolMacroDefinitions) (macroData : MacroData)
    (params : CodeActionParams) : Except String (List CodeAction) :=
  match macro_definitions.imported_macros with
  | [] =>
    .ok [{ title := "Extract to macro, create and import " ++ DEFAULT_MACROS_FILENAME
           edit := { changes := none
                     document_changes :=
                       some (_calculate_external_changes_for_macro_in_new_file env tool
                         DEFAULT_MACROS_FILENAME macroData params) } }]
  | entries => strategyBActions env tool macroData params entries []

/-- `RefactoringService._get_valid_node_tag`: parse the stripped selection as
a standalone fragment; a parse failure or a reserved root tag yields no tag. -/
def _get_valid_node_tag (env : Env) (stripped_xml : String) : Option String :=
  match env.fragment_root_tag stripped_xml with
  | none => none
  | some tag => if tag ∈ [TOOL, MACROS, MACRO, XML] then none else some tag

/-- `RefactoringService.get_valid_full_element_tag`. -/
def get_valid_full_element_tag (env : Env) (xml_text : String) : Option String :=
  let stripped_xml := pyStrip xml_text
  if stripped_xml.length < 5 ∨ (stripped_xml.front ≠ '<' ∨ stripped_xml.back ≠ '>') then
    none
  else _get_valid_node_tag env stripped_xml

/-- The body of `get_available_refactoring_actions` once a valid `MacroData`
candidate has been derived: resolve the macro definitions and collect the
external-extraction actions followed by the local-extraction action. -/
def _actions_for_macro (env : Env) (xml_document : XmlDocument)
    (params : CodeActionParams) (macroData : MacroData) :
    Except String (List CodeAction) :=
  match load_macro_definitions env xml_document with
  | .error e => .error e
  | .ok macro_definitions =>
    let tool := GalaxyToolXmlDocument.from_xml_document xml_document
    match create_extract_to_macros_file_actions env tool macro_definitions macroData
        params with
    | .error e => .error e
    | .ok file_actions =>
      match create_extract_to_local_macro_actions env tool macroData params with
      | .error e => .error e
      | .ok local_actions => .ok (file_actions ++ local_actions)

/-- `RefactoringService.get_available_refactoring_actions`. -/
def get_available_refactoring_actions (env : Env) (xml_document : XmlDocument)
    (params : CodeActionParams) : Except String (List CodeAction) :=
  let text_in_range := xml_document.textInRange params.range
  match get_valid_full_element_tag env text_in_range with
  | none => .ok []
  | some target_element_tag =>
    _actions_for_macro env xml_document params
      { name := target_element_tag, content := pyStrip text_in_range }

/-! ### Dictionary lemmas -/

/-- The keys of a dict are pairwise distinct. -/
def NodupKeys (d : Dict α) : Prop := (dictKeys d).Nodup

/-- No key of the dict contains the sigil character. -/
def SigilFreeKeys (d : Dict α) : Prop := ∀ k ∈ dictKeys d, '@' ∉ k.data

theorem dictGet_nil (q : String) : dictGet ([] : Dict α) q = none := rfl

theorem dictGet_cons (k' : String) (v' : α) (rest : Dict α) (q : String) :
    dictGet ((k', v') :: rest) q = if k' = q then some v' else dictGet rest q := rfl

theorem dictInsert_nil (k : String) (v : α) : dictInsert ([] : Dict α) k v = [(k, v)] := rfl

theorem dictInsert_cons (k' : String) (v' : α) (rest : Dict α) (k : String) (v : α) :
    dictInsert ((k', v') :: rest) k v =
      if k' = k then (k', v) :: rest else (k', v') :: dictInsert rest k v := rfl

theorem dictUpdate_nil (d : Dict α) : dictUpdate d [] = d := rfl

theorem dictUpdate_cons (d : Dict α) (k : String) (v : α) (rest : Dict α) :
    dictUpdate d ((k, v) :: rest) = dictUpdate (dictInsert d k v) rest := rfl

theorem dictKeys_cons (k' : String) (v' : α) (rest : Dict α) :
    dictKeys ((k', v') :: rest) = k' :: dictKeys rest := rfl

theorem dictGet_dictInsert_self (d : Dict α) (k : String) (v : α) :
    dictGet (dictInsert d k v) k = some v := by
  induction d with
  | nil => rw [dictInsert_nil, dictGet_cons, if_pos rfl]
  | cons p rest ih =>
    obtain ⟨k', v'⟩ := p
    rw [dictInsert_cons]
    by_cases h : k' = k
    · rw [if_pos h, dictGet_cons, if_pos h]
    · rw [if_neg h, dictGet_cons, if_neg h, ih]

theorem dictGet_dictInsert_ne (d : Dict α) (k : String) (v : α) {q : String} (h : q ≠ k) :
    dictGet (dictInsert d k v) q = dictGet d q := by
  have hkq : ¬ k = q := fun hk => h hk.symm
  induction d with
  | nil => rw [dictInsert_nil, dictGet_cons, if_neg hkq, dictGet_nil]
  | cons p rest ih =>
    obtain ⟨k', v'⟩ := p
    rw [dictInsert_cons]
    by_cases hk : k' = k
    · have hk'q : ¬ k' = q := fun hq => hkq (hk ▸ hq)
      rw [if_pos hk, dictGet_cons, if_neg hk'q, dictGet_cons, if_neg hk'q]
    · rw [if_neg hk, dictGet_cons, dictGet_cons, ih]

theorem mem_dictKeys_dictInsert (d : Dict α) (k : String) (v : α) (a : String) :
    a ∈ dictKeys (dictInsert d k v) ↔ a ∈ dictKeys d ∨ a = k := by
  induction d with
  | nil =>
    rw [dictInsert_nil]
    simp [dictKeys]
  | cons p rest ih =>
    obtain ⟨k', v'⟩ := p
    rw [dictInsert_cons]
    by_cases h : k' = k
    · rw [if_pos h, dictKeys_cons, dictKeys_cons]
      subst h
      simp only [List.mem_cons]
      constructor
      · exact Or.inl
      · rintro ((ha | ha) | ha)
        · exact Or.inl ha
        · exact Or.inr ha
        · exact Or.inl (ha.trans rfl)
    · rw [if_neg h, dictKeys_cons, dictKeys_cons]
      simp only [List.mem_cons, ih]
      tauto

theorem dictGet_eq_none_of_not_mem (d : Dict α) {q : String} (h : q ∉ dictKeys d) :
    dictGet d q = none := by
  induction d with
  | nil => rfl
  | cons p rest ih =>
    obtain ⟨k', v'⟩ := p
    rw [dictKeys_cons, List.mem_cons, not_or] at h
    have hk : ¬ k' = q := fun hk => h.1 hk.symm
    rw [dictGet_cons, if_neg hk, ih h.2]

theorem mem_of_dictGet_eq_some {d : Dict α} {q : String} {v : α}
    (h : dictGet d q = some v) : (q, v) ∈ d := by
  induction d with
  | nil => exact absurd h (by rw [dictGet_nil]; exact Option.noConfusion)
  | cons p rest ih =>
    obtain ⟨k', v'⟩ := p
    rw [dictGet_cons] at h
    by_cases hk : k' = q
    · rw [if_pos hk] at h
      have hv : v' = v := Option.some.inj h
      subst hk; subst hv
      exact List.mem_cons_self _ _
    · rw [if_neg hk] at h
      exact List.mem_cons_of_mem _ (ih h)

theorem mem_of_mem_dictInsert {d : Dict α} {k : String} {v : α} {p : String × α}
    (h : p ∈ dictInsert d k v) : p ∈ d ∨ p = (k, v) := by
  induction d with
  | nil =>
    rw [dictInsert_nil, List.mem_singleton] at h
    exact Or.inr h
  | cons q rest ih =>
    obtain ⟨k', v'⟩ := q
    rw [dictInsert_cons] at h
    by_cases hk : k' = k
    · rw [if_pos hk, List.mem_cons] at h
      rcases h with h | h
      · exact Or.inr (by rw [h, hk])
      · exact Or.inl (List.mem_cons_of_mem _ h)
    · rw [if_neg hk, List.mem_cons] at h
      rcases h with h | h
      · exact Or.inl (by rw [h]; exact List.mem_cons_self _ _)
      · rcases ih h with h' | h'
        · exact Or.inl (List.mem_cons_of_mem _ h')
        · exact Or.inr h'

theorem nodupKeys_dictInsert {d : Dict α} (k : String) (v : α) (h : NodupKeys d) :
    NodupKeys (dictInsert d k v) := by
  induction d with
  | nil =>
    rw [NodupKeys, dictInsert_nil]
    simp [dictKeys]
  | cons p rest ih =>
    obtain ⟨k', v'⟩ := p
    rw [NodupKeys, dictKeys_cons, List.nodup_cons] at h
    rw [NodupKeys, dictInsert_cons]
    by_cases hk : k' = k
    · rw [if_pos hk, dictKeys_cons, List.nodup_cons]
      exact ⟨h.1, h.2⟩
    · rw [if_neg hk, dictKeys_cons, List.nodup_cons]
      refine ⟨?_, ih h.2⟩
      intro hmem
      rcases (mem_dictKeys_dictInsert rest k v k').mp hmem with hmem | hmem
      · exact h.1 hmem
      · exact hk hmem

theorem sigilFreeKeys_dictInsert {d : Dict α} {k : String} (v : α)
    (hd : SigilFreeKeys d) (hk : '@' ∉ k.data) : SigilFreeKeys (dictInsert d k v) := by
  intro a ha
  rcases (mem_dictKeys_dictInsert d k v a).mp ha with ha | ha
  · exact hd a ha
  · rw [ha]; exact hk

theorem isSome_dictGet_dictInsert {d : Dict α} {q : String} (k : String) (v : α)
    (h : (dictGet d q).isSome) : (dictGet (dictInsert d k v) q).isSome := by
  by_cases hk : q = k
  · rw [hk, dictGet_dictInsert_self]; rfl
  · rwa [dictGet_dictInsert_ne _ _ _ hk]

theorem dictGet_dictUpdate_not_mem (d : Dict α) {other : Dict α} {q : String}
    (h : q ∉ dictKeys other) : dictGet (dictUpdate d other) q = dictGet d q := by
  induction other generalizing d with
  | nil => rfl
  | cons p rest ih =>
    obtain ⟨k1, v1⟩ := p
    rw [dictKeys_cons, List.mem_cons, not_or] at h
    rw [dictUpdate_cons, ih _ h.2, dictGet_dictInsert_ne _ _ _ h.1]

theorem dictGet_dictUpdate_of_mem (d : Dict α) {other : Dict α} {q : String} {v : α}
    (hnd : NodupKeys other) (h : dictGet other q = some v) :
    dictGet (dictUpdate d other) q = some v := by
  induction other generalizing d with
  | nil => exact absurd h (by rw [dictGet_nil]; exact Option.noConfusion)
  | cons p rest ih =>
    obtain ⟨k1, v1⟩ := p
    rw [NodupKeys, dictKeys_cons, List.nodup_cons] at hnd
    rw [dictGet_cons] at h
    rw [dictUpdate_cons]
    by_cases hk : k1 = q
    · rw [if_pos hk] at h
      have hv : v1 = v := Option.some.inj h
      subst hk
      rw [dictGet_dictUpdate_not_mem _ hnd.1, dictGet_dictInsert_self, hv]
    · rw [if_neg hk] at h
      exact ih (dictInsert d k1 v1) hnd.2 h

theorem isSome_dictGet_dictUpdate {d : Dict α} (other : Dict α) {q : String}
    (h : (dictGet d q).isSome) : (dictGet (dictUpdate d other) q).isSome := by
  induction other generalizing d with
  | nil => exact h
  | cons p rest ih =>
    obtain ⟨k1, v1⟩ := p
    rw [dictUpdate_cons]
    exact ih (isSome_dictGet_dictInsert k1 v1 h)

theorem sigilFreeKeys_dictUpdate {d other : Dict α} (hd : SigilFreeKeys d)
    (ho : SigilFreeKeys other) : SigilFreeKeys (dictUpdate d other) := by
  induction other generalizing d with
  | nil => exact hd
  | cons p rest ih =>
    obtain ⟨k1, v1⟩ := p
    have hk1 : '@' ∉ k1.data := ho k1 (by rw [dictKeys_cons]; exact List.mem_cons_self _ _)
    have hrest : SigilFreeKeys rest := by
      intro a ha
      exact ho a (by rw [dictKeys_cons]; exact List.mem_cons_of_mem _ ha)
    rw [dictUpdate_cons]
    exact ih (sigilFreeKeys_dictInsert v1 hd hk1) hrest

theorem removeSigil_not_mem (s : String) : '@' ∉ (removeSigil s).data := by
  simp [removeSigil, List.mem_filter]

/-! ### Symbol-resolver lemmas -/

/-- Every element of the list carries a `name` attribute. -/
abbrev AllNamed (es : List XmlElement) : Prop := ∀ e ∈ es, e.nameAttr.isSome = true

/-- The key under which an `import` element is recorded: its text content,
when present and non-empty. -/
def keyOfImport (imp : XmlElement) : Option String :=
  match imp.content with
  | none => none
  | some n => if n = "" then none else some n

theorem tokenDefsFrom_nil (uri : String) (acc : Dict TokenDefinition) :
    tokenDefsFrom uri [] acc = .ok acc := rfl

theorem tokenDefsFrom_cons_named (uri : String) {e : XmlElement} {n : String}
    (hn : e.nameAttr = some n) (rest : List XmlElement) (acc : Dict TokenDefinition) :
    tokenDefsFrom uri (e :: rest) acc =
      tokenDefsFrom uri rest
        (dictInsert acc (removeSigil n)
          { name := removeSigil n, location := { uri := uri, range := e.nameRange } }) := by
  simp only [tokenDefsFrom, hn]

theorem tokenDefsFrom_cons_unnamed (uri : String) {e : XmlElement}
    (hn : e.nameAttr = none) (rest : List XmlElement) (acc : Dict TokenDefinition) :
    tokenDefsFrom uri (e :: rest) acc =
      .error "AttributeError: NoneType has no attribute replace" := by
  simp only [tokenDefsFrom, hn]

theorem tokenDefsFrom_ok_of_named {es : List XmlElement} (uri : String)
    (h : AllNamed es) (acc : Dict TokenDefinition) :
    ∃ r, tokenDefsFrom uri es acc = .ok r := by
  induction es generalizing acc with
  | nil => exact ⟨acc, rfl⟩
  | cons e rest ih =>
    obtain ⟨n, hn⟩ := Option.isSome_iff_exists.mp (h e (List.mem_cons_self _ _))
    have hrest : AllNamed rest := fun x hx => h x (List.mem_cons_of_mem _ hx)
    rw [tokenDefsFrom_cons_named uri hn]
    exact ih hrest _

theorem tokenDefsFrom_error_of_unnamed {es : List XmlElement} (uri : String)
    {e : XmlElement} (he : e ∈ es) (hn : e.nameAttr = none) (acc : Dict TokenDefinition) :
    ∃ msg, tokenDefsFrom uri es acc = .error msg := by
  induction es generalizing acc with
  | nil => exact absurd he (List.not_mem_nil e)
  | cons e' rest ih =>
    cases hn' : e'.nameAttr with
    | none => exact ⟨_, tokenDefsFrom_cons_unnamed uri hn' rest acc⟩
    | some m =>
      rw [tokenDefsFrom_cons_named uri hn']
      rcases List.mem_cons.mp he with heq | hmem
      · rw [heq] at hn
        rw [hn] at hn'
        exact absurd hn' (by simp)
      · exact ih hmem _

theorem tokenDefsFrom_ok_preserves {uri : String} {es : List XmlElement}
    {acc r : Dict TokenDefinition} {q : String}
    (hok : tokenDefsFrom uri es acc = .ok r) (h : (dictGet acc q).isSome) :
    (dictGet r q).isSome := by
  induction es generalizing acc with
  | nil =>
    rw [tokenDefsFrom_nil] at hok
    rw [← Except.ok.inj hok]
    exact h
  | cons e rest ih =>
    cases hn : e.nameAttr with
    | none =>
      rw [tokenDefsFrom_cons_unnamed uri hn] at hok
      exact absurd hok (by simp)
    | some n =>
      rw [tokenDefsFrom_cons_named uri hn] at hok
      exact ih hok (isSome_dictGet_dictInsert _ _ h)

theorem tokenDefsFrom_contains {uri : String} {es : List XmlElement}
    {acc r : Dict TokenDefinition} {e : XmlElement} {n : String}
    (hok : tokenDefsFrom uri es acc = .ok r) (he : e ∈ es) (hn : e.nameAttr = some n) :
    (dictGet r (removeSigil n)).isSome := by
  induction es generalizing acc with
  | nil => exact absurd he (List.not_mem_nil e)
  | cons e' rest ih =>
    cases hn' : e'.nameAttr with
    | none =>
      rw [tokenDefsFrom_cons_unnamed uri hn'] at hok
      exact absurd hok (by simp)
    | some m =>
      rw [tokenDefsFrom_cons_named uri hn'] at hok
      rcases List.mem_cons.mp he with heq | hmem
      · have hm : m = n := by
          rw [heq] at hn
          exact Option.some.inj (hn'.symm.trans hn)
        rw [hm] at hok
        exact tokenDefsFrom_ok_preserves hok
          (by rw [dictGet_dictInsert_self]; rfl)
      · exact ih hok hmem

theorem tokenDefsFrom_nodup {uri : String} {es : List XmlElement}
    {acc r : Dict TokenDefinition} (hok : tokenDefsFrom uri es acc = .ok r)
    (hacc : NodupKeys acc) : NodupKeys r := by
  induction es generalizing acc with
  | nil =>
    rw [tokenDefsFrom_nil] at hok
    rw [← Except.ok.inj hok]
    exact hacc
  | cons e rest ih =>
    cases hn : e.nameAttr with
    | none =>
      rw [tokenDefsFrom_cons_unnamed uri hn] at hok
      exact absurd hok (by simp)
    | some n =>
      rw [tokenDefsFrom_cons_named uri hn] at hok
      exact ih hok (nodupKeys_dictInsert _ _ hacc)

theorem tokenDefsFrom_sigilFree {uri : String} {es : List XmlElement}
    {acc r : Dict TokenDefinition} (hok : tokenDefsFrom uri es acc = .ok r)
    (hacc : SigilFreeKeys acc) : SigilFreeKeys r := by
  induction es generalizing acc with
  | nil =>
    rw [tokenDefsFrom_nil] at hok
    rw [← Except.ok.inj hok]
    exact hacc
  | cons e rest ih =>
    cases hn : e.nameAttr with
    | none =>
      rw [tokenDefsFrom_cons_unnamed uri hn] at hok
      exact absurd hok (by simp)
    | some n =>
      rw [tokenDefsFrom_cons_named uri hn] at hok
      exact ih hok (sigilFreeKeys_dictInsert _ hacc (removeSigil_not_mem n))

theorem find_all_parseFailed {d : XmlDocument} (h : d.parseFailed = true) (tag : String) :
    d.find_all_elements_with_name tag = [] := by
  simp [XmlDocument.find_all_elements_with_name, h]

theorem get_token_definitions_parseFailed {d : XmlDocument} (h : d.parseFailed = true) :
    _get_token_definitions d = .ok [] := by
  rw [_get_token_definitions, find_all_parseFailed h, tokenDefsFrom_nil]

theorem get_token_definitions_ok_of_named {d : XmlDocument}
    (h : AllNamed (d.find_all_elements_with_name TOKEN)) :
    ∃ r, _get_token_definitions d = .ok r :=
  tokenDefsFrom_ok_of_named d.uri h []

theorem get_token_definitions_nodup {d : XmlDocument} {r : Dict TokenDefinition}
    (h : _get_token_definitions d = .ok r) : NodupKeys r :=
  tokenDefsFrom_nodup h (by simp [NodupKeys, dictKeys])

theorem get_token_definitions_sigilFree {d : XmlDocument} {r : Dict TokenDefinition}
    (h : _get_token_definitions d = .ok r) : SigilFreeKeys r :=
  tokenDefsFrom_sigilFree h (by intro k hk; exact absurd hk (List.not_mem_nil k))

/-! ### Import-resolution lemmas -/

/-- The unresolved entry the resolver records for a missing file. -/
def unresolvedFile (n : String) : ImportedMacrosFile :=
  { file_name := n, file_uri := none, document := none, tokens := [] }

/-- The resolved entry the resolver records for an existing file. -/
def resolvedFile (env : Env) (dir n : String) (tks : Dict TokenDefinition) :
    ImportedMacrosFile :=
  { file_name := n
    file_uri := some (pathAsUri (dir ++ "/" ++ n))
    document := some (env.getParsedDocument (pathAsUri (dir ++ "/" ++ n)))
    tokens := tks }

theorem processImport_none {env : Env} {dir : String} {imp : XmlElement} {source : String}
    {acc : Dict ImportedMacrosFile} (hc : imp.content = none) :
    processImport env dir imp source acc = .ok acc := by
  simp only [processImport, XmlElement.get_content, hc]

theorem processImport_empty {env : Env} {dir : String} {imp : XmlElement} {source : String}
    {acc : Dict ImportedMacrosFile} (hc : imp.content = some "") :
    processImport env dir imp source acc = .ok acc := by
  simp [processImport, XmlElement.get_content, hc]

theorem processImport_not_exists {env : Env} {dir : String} {imp : XmlElement}
    {source : String} {acc : Dict ImportedMacrosFile} {n : String}
    (hc : imp.content = some n) (hne : n ≠ "")
    (hex : env.fileExists (dir ++ "/" ++ n) = false) :
    processImport env dir imp source acc = .ok (dictInsert acc n (unresolvedFile n)) := by
  simp only [processImport, XmlElement.get_content, hc, if_neg hne, hex,
    Bool.false_eq_true, if_false, unresolvedFile]

theorem processImport_exists {env : Env} {dir : String} {imp : XmlElement}
    {source : String} {acc : Dict ImportedMacrosFile} {n : String}
    {tks : Dict TokenDefinition} (hc : imp.content = some n) (hne : n ≠ "")
    (hex : env.fileExists (dir ++ "/" ++ n) = true)
    (ht : _get_token_definitions (env.getParsedDocument (pathAsUri (dir ++ "/" ++ n)))
      = .ok tks) :
    processImport env dir imp source acc =
      .ok (dictInsert acc n (resolvedFile env dir n tks)) := by
  simp only [processImport, XmlElement.get_content, hc, if_neg hne, hex, if_true,
    _load_macros_document, ht, resolvedFile]

theorem processImport_exists_error {env : Env} {dir : String} {imp : XmlElement}
    {source : String} {acc : Dict ImportedMacrosFile} {n msg : String}
    (hc : imp.content = some n) (hne : n ≠ "")
    (hex : env.fileExists (dir ++ "/" ++ n) = true)
    (ht : _get_token_definitions (env.getParsedDocument (pathAsUri (dir ++ "/" ++ n)))
      = .error msg) :
    processImport env dir imp source acc = .error msg := by
  simp only [processImport, XmlElement.get_content, hc, if_neg hne, hex, if_true,
    _load_macros_document, ht]

/-- The collaborator conditions under which resolving one import cannot
raise: whenever the import names an existing file, every token element of
that file's parsed document carries a name attribute. -/
def ImportScanOk (env : Env) (dir : String) (imp : XmlElement) : Prop :=
  ∀ n, imp.content = some n → n ≠ "" → env.fileExists (dir ++ "/" ++ n) = true →
    AllNamed
      ((env.getParsedDocument (pathAsUri (dir ++ "/" ++ n))).find_all_elements_with_name
        TOKEN)

theorem processImport_ok_of_scanOk {env : Env} {dir : String} {imp : XmlElement}
    (source : String) (h : ImportScanOk env dir imp) (acc : Dict ImportedMacrosFile) :
    ∃ acc', processImport env dir imp source acc = .ok acc' := by
  cases hc : imp.content with
  | none => exact ⟨acc, processImport_none hc⟩
  | some n =>
    by_cases hne : n = ""
    · rw [hne] at hc
      exact ⟨acc, processImport_empty hc⟩
    · cases hex : env.fileExists (dir ++ "/" ++ n) with
      | false => exact ⟨_, processImport_not_exists hc hne hex⟩
      | true =>
        obtain ⟨tks, ht⟩ := get_token_definitions_ok_of_named (h n hc hne hex)
        exact ⟨_, processImport_exists hc hne hex ht⟩

theorem processImport_get_stable {env : Env} {dir : String} {imp : XmlElement}
    {source : String} {acc acc' : Dict ImportedMacrosFile} {q : String}
    (hok : processImport env dir imp source acc = .ok acc')
    (hne : keyOfImport imp ≠ some q) : dictGet acc' q = dictGet acc q := by
  cases hc : imp.content with
  | none =>
    rw [processImport_none hc] at hok
    rw [← Except.ok.inj hok]
  | some n =>
    by_cases hn : n = ""
    · rw [hn] at hc
      rw [processImport_empty hc] at hok
      rw [← Except.ok.inj hok]
    · have hq : n ≠ q := by
        intro hnq
        apply hne
        simp only [keyOfImport, hc, if_neg hn]
        rw [hnq]
      cases hex : env.fileExists (dir ++ "/" ++ n) with
      | false =>
        rw [processImport_not_exists hc hn hex] at hok
        rw [← Except.ok.inj hok, dictGet_dictInsert_ne _ _ _ (fun hqn => hq hqn.symm)]
      | true =>
        cases ht : _get_token_definitions
            (env.getParsedDocument (pathAsUri (dir ++ "/" ++ n))) with
        | error msg =>
          rw [processImport_exists_error hc hn hex ht] at hok
          exact absurd hok (by simp)
        | ok tks =>
          rw [processImport_exists hc hn hex ht] at hok
          rw [← Except.ok.inj hok, dictGet_dictInsert_ne _ _ _ (fun hqn => hq hqn.symm)]

theorem processImport_isSome_stable {env : Env} {dir : String} {imp : XmlElement}
    {source : String} {acc acc' : Dict ImportedMacrosFile} {q : String}
    (hok : processImport env dir imp source acc = .ok acc')
    (h : (dictGet acc q).isSome) : (dictGet acc' q).isSome := by
  cases hc : imp.content with
  | none =>
    rw [processImport_none hc] at hok
    rw [← Except.ok.inj hok]
    exact h
  | some n =>
    by_cases hn : n = ""
    · rw [hn] at hc
      rw [processImport_empty hc] at hok
      rw [← Except.ok.inj hok]
      exact h
    · cases hex : env.fileExists (dir ++ "/" ++ n) with
      | false =>
        rw [processImport_not_exists hc hn hex] at hok
        rw [← Except.ok.inj hok]
        exact isSome_dictGet_dictInsert _ _ h
      | true =>
        cases ht : _get_token_definitions
            (env.getParsedDocument (pathAsUri (dir ++ "/" ++ n))) with
        | error msg =>
          rw [processImport_exists_error hc hn hex ht] at hok
          exact absurd hok (by simp)
        | ok tks =>
          rw [processImport_exists hc hn hex ht] at hok
          rw [← Except.ok.inj hok]
          exact isSome_dictGet_dictInsert _ _ h

theorem processImport_mem {env : Env} {dir : String} {imp : XmlElement}
    {source : String} {acc acc' : Dict ImportedMacrosFile}
    {p : String × ImportedMacrosFile}
    (hok : processImport env dir imp source acc = .ok acc') (hp : p ∈ acc') :
    p ∈ acc ∨ p.2.tokens = [] ∨ ∃ doc, _get_token_definitions doc = .ok p.2.tokens := by
  cases hc : imp.content with
  | none =>
    rw [processImport_none hc] at hok
    rw [← Except.ok.inj hok] at hp
    exact Or.inl hp
  | some n =>
    by_cases hn : n = ""
    · rw [hn] at hc
      rw [processImport_empty hc] at hok
      rw [← Except.ok.inj hok] at hp
      exact Or.inl hp
    · cases hex : env.fileExists (dir ++ "/" ++ n) with
      | false =>
        rw [processImport_not_exists hc hn hex] at hok
        rw [← Except.ok.inj hok] at hp
        rcases mem_of_mem_dictInsert hp with hp' | hp'
        · exact Or.inl hp'
        · exact Or.inr (Or.inl (by rw [hp']; rfl))
      | true =>
        cases ht : _get_token_definitions
            (env.getParsedDocument (pathAsUri (dir ++ "/" ++ n))) with
        | error msg =>
          rw [processImport_exists_error hc hn hex ht] at hok
          exact absurd hok (by simp)
        | ok tks =>
          rw [processImport_exists hc hn hex ht] at hok
          rw [← Except.ok.inj hok] at hp
          rcases mem_of_mem_dictInsert hp with hp' | hp'
          · exact Or.inl hp'
          · exact Or.inr (Or.inr ⟨_, by rw [hp']; exact ht⟩)

theorem processImport_key_present {env : Env} {dir : String} {imp : XmlElement}
    {source : String} {acc acc' : Dict ImportedMacrosFile} {n : String}
    (hok : processImport env dir imp source acc = .ok acc')
    (hk : keyOfImport imp = some n) : (dictGet acc' n).isSome := by
  cases hc : imp.content with
  | none =>
    rw [keyOfImport, hc] at hk
    exact absurd hk (by simp)
  | some n' =>
    by_cases hn' : n' = ""
    · simp only [keyOfImport, hc, if_pos hn'] at hk
      exact absurd hk (by simp)
    · have hnn : n' = n := by
        simp only [keyOfImport, hc, if_neg hn'] at hk
        exact Option.some.inj hk
      subst hnn
      cases hex : env.fileExists (dir ++ "/" ++ n') with
      | false =>
        rw [processImport_not_exists hc hn' hex] at hok
        rw [← Except.ok.inj hok, dictGet_dictInsert_self]
        rfl
      | true =>
        cases ht : _get_token_definitions
            (env.getParsedDocument (pathAsUri (dir ++ "/" ++ n'))) with
        | error msg =>
          rw [processImport_exists_error hc hn' hex ht] at hok
          exact absurd hok (by simp)
        | ok tks =>
          rw [processImport_exists hc hn' hex ht] at hok
          rw [← Except.ok.inj hok, dictGet_dictInsert_self]
          rfl

theorem macroFilesFrom_nil (env : Env) (dir source : String)
    (acc : Dict ImportedMacrosFile) :
    macroFilesFrom env dir source [] acc = .ok acc := rfl

theorem macroFilesFrom_cons_ok {env : Env} {dir source : String} {imp : XmlElement}
    {rest : List XmlElement} {acc acc' : Dict ImportedMacrosFile}
    (hp : processImport env dir imp source acc = .ok acc') :
    macroFilesFrom env dir source (imp :: rest) acc =
      macroFilesFrom env dir source rest acc' := by
  simp only [macroFilesFrom, hp]

theorem macroFilesFrom_cons_error {env : Env} {dir source : String} {imp : XmlElement}
    {rest : List XmlElement} {acc : Dict ImportedMacrosFile} {msg : String}
    (hp : processImport env dir imp source acc = .error msg) :
    macroFilesFrom env dir source (imp :: rest) acc = .error msg := by
  simp only [macroFilesFrom, hp]

theorem macroFilesFrom_ok_of_scanOk {env : Env} {dir : String} (source : String)
    {es : List XmlElement} (h : ∀ imp ∈ es, ImportScanOk env dir imp)
    (acc : Dict ImportedMacrosFile) :
    ∃ res, macroFilesFrom env dir source es acc = .ok res := by
  induction es generalizing acc with
  | nil => exact ⟨acc, rfl⟩
  | cons imp rest ih =>
    obtain ⟨acc', hp⟩ :=
      processImport_ok_of_scanOk source (h imp (List.mem_cons_self _ _)) acc
    obtain ⟨res, hres⟩ := ih (fun x hx => h x (List.mem_cons_of_mem _ hx)) acc'
    exact ⟨res, by rw [macroFilesFrom_cons_ok hp, hres]⟩

theorem macroFilesFrom_append {env : Env} {dir source : String}
    {as bs : List XmlElement} {acc res : Dict ImportedMacrosFile}
    (hok : macroFilesFrom env dir source (as ++ bs) acc = .ok res) :
    ∃ mid, macroFilesFrom env dir source as acc = .ok mid ∧
      macroFilesFrom env dir source bs mid = .ok res := by
  induction as generalizing acc with
  | nil => exact ⟨acc, rfl, hok⟩
  | cons a rest ih =>
    cases hp : processImport env dir a source acc with
    | error msg =>
      rw [List.cons_append, macroFilesFrom_cons_error hp] at hok
      exact absurd hok (by simp)
    | ok acc1 =>
      rw [List.cons_append, macroFilesFrom_cons_ok hp] at hok
      obtain ⟨mid, h1, h2⟩ := ih hok
      exact ⟨mid, by rw [macroFilesFrom_cons_ok hp]; exact h1, h2⟩

theorem macroFilesFrom_get_stable {env : Env} {dir source : String}
    {es : List XmlElement} {acc res : Dict ImportedMacrosFile} {q : String}
    (hok : macroFilesFrom env dir source es acc = .ok res)
    (h : ∀ imp ∈ es, keyOfImport imp ≠ some q) : dictGet res q = dictGet acc q := by
  induction es generalizing acc with
  | nil =>
    rw [macroFilesFrom_nil] at hok
    rw [← Except.ok.inj hok]
  | cons imp rest ih =>
    cases hp : processImport env dir imp source acc with
    | error msg =>
      rw [macroFilesFrom_cons_error hp] at hok
      exact absurd hok (by simp)
    | ok acc1 =>
      rw [macroFilesFrom_cons_ok hp] at hok
      rw [ih hok (fun x hx => h x (List.mem_cons_of_mem _ hx)),
        processImport_get_stable hp (h imp (List.mem_cons_self _ _))]

theorem macroFilesFrom_isSome_stable {env : Env} {dir source : String}
    {es : List XmlElement} {acc res : Dict ImportedMacrosFile} {q : String}
    (hok : macroFilesFrom env dir source es acc = .ok res)
    (h : (dictGet acc q).isSome) : (dictGet res q).isSome := by
  induction es generalizing acc with
  | nil =>
    rw [macroFilesFrom_nil] at hok
    rw [← Except.ok.inj hok]
    exact h
  | cons imp rest ih =>
    cases hp : processImport env dir imp source acc with
    | error msg =>
      rw [macroFilesFrom_cons_error hp] at hok
      exact absurd hok (by simp)
    | ok acc1 =>
      rw [macroFilesFrom_cons_ok hp] at hok
      exact ih hok (processImport_isSome_stable hp h)

theorem macroFilesFrom_key_present {env : Env} {dir source : String}
    {es : List XmlElement} {acc res : Dict ImportedMacrosFile} {imp : XmlElement}
    {n : String} (hok : macroFilesFrom env dir source es acc = .ok res)
    (himp : imp ∈ es) (hk : keyOfImport imp = some n) : (dictGet res n).isSome := by
  induction es generalizing acc with
  | nil => exact absurd himp (List.not_mem_nil imp)
  | cons e rest ih =>
    cases hp : processImport env dir e source acc with
    | error msg =>
      rw [macroFilesFrom_cons_error hp] at hok
      exact absurd hok (by simp)
    | ok acc1 =>
      rw [macroFilesFrom_cons_ok hp] at hok
      rcases List.mem_cons.mp himp with heq | hmem
      · rw [← heq] at hp
        exact macroFilesFrom_isSome_stable hok (processImport_key_present hp hk)
      · exact ih hok hmem

theorem macroFilesFrom_mem {env : Env} {dir source : String} {es : List XmlElement}
    {acc res : Dict ImportedMacrosFile} {p : String × ImportedMacrosFile}
    (hok : macroFilesFrom env dir source es acc = .ok res) (hp : p ∈ res) :
    p ∈ acc ∨ p.2.tokens = [] ∨ ∃ doc, _get_token_definitions doc = .ok p.2.tokens := by
  induction es generalizing acc with
  | nil =>
    rw [macroFilesFrom_nil] at hok
    rw [Except.ok.inj hok]
    exact Or.inl hp
  | cons e rest ih =>
    cases hpr : processImport env dir e source acc with
    | error msg =>
      rw [macroFilesFrom_cons_error hpr] at hok
      exact absurd hok (by simp)
    | ok acc1 =>
      rw [macroFilesFrom_cons_ok hpr] at hok
      rcases ih hok with h1 | h1
      · exact processImport_mem hpr h1
      · exact Or.inr h1

theorem macroFilesFrom_error_of_scan_error {env : Env} {dir source : String}
    {es : List XmlElement} {imp : XmlElement} {n msg : String}
    (himp : imp ∈ es) (hc : imp.content = some n) (hn : n ≠ "")
    (hex : env.fileExists (dir ++ "/" ++ n) = true)
    (ht : _get_token_definitions (env.getParsedDocument (pathAsUri (dir ++ "/" ++ n)))
      = .error msg) (acc : Dict ImportedMacrosFile) :
    ∃ msg', macroFilesFrom env dir source es acc = .error msg' := by
  induction es generalizing acc with
  | nil => exact absurd himp (List.not_mem_nil imp)
  | cons e rest ih =>
    cases hp : processImport env dir e source acc with
    | error msg0 => exact ⟨msg0, macroFilesFrom_cons_error hp⟩
    | ok acc1 =>
      rcases List.mem_cons.mp himp with heq | hmem
      · rw [← heq] at hp
        rw [processImport_exists_error hc hn hex ht] at hp
        exact absurd hp (by simp)
      · rw [macroFilesFrom_cons_ok hp]
        exact ih hmem acc1

/-! ### `load_macro_definitions` unfolding lemmas -/

theorem load_unfold_ok {env : Env} {tool_xml : XmlDocument} {toks : Dict TokenDefinition}
    {files : Dict ImportedMacrosFile} (htoks : _get_token_definitions tool_xml = .ok toks)
    (hfiles : _get_imported_macro_files_from_tool env tool_xml = .ok files) :
    load_macro_definitions env tool_xml =
      .ok { tool_document := tool_xml
            imported_macros := files
            tokens := (dictValues files).foldl
              (fun acc file => dictUpdate acc file.tokens) toks } := by
  simp only [load_macro_definitions, htoks, hfiles]

theorem load_error_of_toks_error {env : Env} {tool_xml : XmlDocument} {msg : String}
    (htoks : _get_token_definitions tool_xml = .error msg) :
    load_macro_definitions env tool_xml = .error msg := by
  simp only [load_macro_definitions, htoks]

theorem load_error_of_files_error {env : Env} {tool_xml : XmlDocument}
    {toks : Dict TokenDefinition} {msg : String}
    (htoks : _get_token_definitions tool_xml = .ok toks)
    (hfiles : _get_imported_macro_files_from_tool env tool_xml = .error msg) :
    load_macro_definitions env tool_xml = .error msg := by
  simp only [load_macro_definitions, htoks, hfiles]

theorem foldUpdate_isSome {q : String} (fs : List ImportedMacrosFile)
    (toks : Dict TokenDefinition) (h : (dictGet toks q).isSome) :
    (dictGet (fs.foldl (fun acc file => dictUpdate acc file.tokens) toks) q).isSome := by
  induction fs generalizing toks with
  | nil => exact h
  | cons f rest ih => exact ih _ (isSome_dictGet_dictUpdate _ h)

theorem foldUpdate_sigilFree {fs : List ImportedMacrosFile} {toks : Dict TokenDefinition}
    (h : SigilFreeKeys toks) (hfs : ∀ f ∈ fs, SigilFreeKeys f.tokens) :
    SigilFreeKeys (fs.foldl (fun acc file => dictUpdate acc file.tokens) toks) := by
  induction fs generalizing toks with
  | nil => exact h
  | cons f rest ih =>
    exact ih (sigilFreeKeys_dictUpdate h (hfs f (List.mem_cons_self _ _)))
      (fun x hx => hfs x (List.mem_cons_of_mem _ hx))

/-! ### Edit-synthesizer unfolding lemmas -/

theorem get_available_eq_empty {env : Env} {d : XmlDocument} {params : CodeActionParams}
    (h : get_valid_full_element_tag env (d.textInRange params.range) = none) :
    get_available_refactoring_actions env d params = .ok [] := by
  simp only [get_available_refactoring_actions, h]

theorem get_available_eq_actions {env : Env} {d : XmlDocument} {params : CodeActionParams}
    {tag : String}
    (h : get_valid_full_element_tag env (d.textInRange params.range) = some tag) :
    get_available_refactoring_actions env d params =
      _actions_for_macro env d params
        { name := tag, content := pyStrip (d.textInRange params.range) } := by
  simp only [get_available_refactoring_actions, h]

theorem get_valid_full_element_tag_reject {env : Env} {t : String}
    (h : (pyStrip t).length < 5 ∨ ((pyStrip t).front ≠ '<' ∨ (pyStrip t).back ≠ '>')) :
    get_valid_full_element_tag env t = none := by
  simp only [get_valid_full_element_tag, if_pos h]

theorem get_valid_full_element_tag_go {env : Env} {t : String}
    (h : ¬((pyStrip t).length < 5 ∨ ((pyStrip t).front ≠ '<' ∨ (pyStrip t).back ≠ '>'))) :
    get_valid_full_element_tag env t = _get_valid_node_tag env (pyStrip t) := by
  simp only [get_valid_full_element_tag, if_neg h]

theorem get_valid_node_tag_parse_failure {env : Env} {s : String}
    (h : env.fragment_root_tag s = none) : _get_valid_node_tag env s = none := by
  simp only [_get_valid_node_tag, h]

theorem get_valid_node_tag_reserved {env : Env} {s tag : String}
    (h : env.fragment_root_tag s = some tag) (hres : tag ∈ [TOOL, MACROS, MACRO, XML]) :
    _get_valid_node_tag env s = none := by
  simp only [_get_valid_node_tag, h, if_pos hres]

theorem get_valid_node_tag_accept {env : Env} {s tag : String}
    (h : env.fragment_root_tag s = some tag) (hres : tag ∉ [TOOL, MACROS, MACRO, XML]) :
    _get_valid_node_tag env s = some tag := by
  simp only [_get_valid_node_tag, h, if_neg hres]

/-! ### Concrete fixtures for witnesses and counterexamples -/

/-- The degenerate range used by the concrete fixtures. -/
def noRange : Range := { start := { line := 0, character := 0 }, «end» := { line := 0, character := 0 } }

/-- An empty, well-parsed document with trivial collaborator answers. -/
def emptyDoc : XmlDocument :=
  { uri := "", path := "", source := "", parseFailed := false, tokenElements := []
    importElements := []
    root := none, rootNameRange := none
    positionAfterLastChildOfRoot := { line := 0, character := 0 }
    textInRange := fun _ => "", lineIndentation := fun _ => ""
    macrosElement := none, xrefElement := none, descriptionElement := none
    toolContentRange := noRange }

/-- An environment with no files, no documents and identity formatting. -/
def emptyEnv : Env :=
  { fileExists := fun _ => false
    getParsedDocument := fun _ => emptyDoc
    get_document := fun u => { uri := u, version := 7 }
    format_content := fun s => s
    fragment_root_tag := fun _ => none }

/-! ### Claims -/

/-- C8: for every selection, `create_extract_to_local_macro_actions` produces
exactly one Strategy-A action, whose edit set holds two edits on the
selection's document, the second being the replacement edit spanning from
character 0 of the selection's start line to the selection's end, whose text
is the start line's indentation followed by the self-closing `expand`
reference element carrying the macro name. -/
theorem claim_C8_local_action (env : Env) (tool : GalaxyToolXmlDocument)
    (macroData : MacroData) (params : CodeActionParams) :
    ∃ e1, create_extract_to_local_macro_actions env tool macroData params =
      .ok [{ title := "Extract to local macro"
             edit := { changes := some [(params.text_document.uri,
                         [e1,
                          { range := { start := { line := params.range.start.line
                                                  character := 0 }
                                       «end» := params.range.«end» }
                            new_text :=
                              tool.xml_document.lineIndentation
                                  (params.range.start.line : Int)
                                ++ "<expand macro=\"" ++ macroData.name ++ "\"/>" }])]
                       document_changes := none } }] := by
  cases hm : tool.get_macros_element with
  | none =>
    refine ⟨_edit_create_with_macros_section env tool macroData, ?_⟩
    simp only [create_extract_to_local_macro_actions, _calculate_local_changes_for_macro,
      hm, _edit_replace_range_with_macro_expand, _get_range_from_line_start]
  | some me =>
    refine ⟨{ range := { start := me.positionAfterLastChild
                         «end» := me.positionAfterLastChild }
              new_text := _adapt_format env tool.xml_document
                { start := me.positionAfterLastChild, «end» := me.positionAfterLastChild }
                ("<xml name=\"" ++ macroData.name ++ "\">\n" ++ macroData.content
                  ++ "\n</xml>") }, ?_⟩
    simp only [create_extract_to_local_macro_actions, _calculate_local_changes_for_macro,
      hm, _edit_add_macro_to_macros_section, _edit_replace_range_with_macro_expand,
      _get_range_from_line_start]

/-- C9: sigil stripping removes every occurrence of the sigil character, not
only a leading one: a token-declaring element with declared name `A@B` is
recorded under the table key `AB`. -/
theorem claim_C9_sigil_all_occurrences (u p : String) (rng : Range) (c : Option String)
    (imps : List XmlElement) (rt : Option XmlElement) (rnr : Option Range)
    (pos : Position) (tir : Range → String) (li : Int → String)
    (me xe de : Option ToolElementInfo) (tcr : Range) :
    _get_token_definitions
      { uri := u, path := p, source := "", parseFailed := false
        tokenElements := [{ nameAttr := some "A@B", nameRange := rng, content := c }]
        importElements := imps, root := rt, rootNameRange := rnr
        positionAfterLastChildOfRoot := pos, textInRange := tir, lineIndentation := li
        macrosElement := me, xrefElement := xe, descriptionElement := de
        toolContentRange := tcr }
      = .ok [("AB", { name := "AB", location := { uri := u, range := rng } })] := by
  have hAB : removeSigil "A@B" = "AB" := by decide
  simp only [_get_token_definitions, XmlDocument.find_all_elements_with_name,
    Bool.false_eq_true, if_false, if_true]
  rw [tokenDefsFrom_cons_named _ rfl, hAB, dictInsert_nil, tokenDefsFrom_nil]

/-- C7: on a tool document with no imported macros files, exactly one
Strategy-C action is produced; its edit set is the file-creation directive
for the default macros file at the tool's sibling path, one whole-document
insertion at version 0 for the new file, and one multi-edit modification
carrying the tool document's current workspace version whose edits add
the import declaration and replace the selection with the reference
element. -/
theorem claim_C7_new_file_action (env : Env) (tool : GalaxyToolXmlDocument)
    (defs : ToolMacroDefinitions) (macroData : MacroData) (params : CodeActionParams)
    (h : defs.imported_macros = []) :
    create_extract_to_macros_file_actions env tool defs macroData params =
      .ok [{ title := "Extract to macro, create and import " ++ DEFAULT_MACROS_FILENAME
             edit :=
               { changes := none
                 document_changes := some
                   [DocumentChange.createFile
                      { uri := pathAsUri (parentPath (stripFileScheme tool.xml_document.uri)
                          ++ "/" ++ DEFAULT_MACROS_FILENAME) },
                    DocumentChange.textDocumentEdit
                      { text_document :=
                          { uri := pathAsUri (parentPath
                              (stripFileScheme tool.xml_document.uri)
                              ++ "/" ++ DEFAULT_MACROS_FILENAME)
                            version := 0 }
                        edits := [{ range := { start := { line := 0, character := 0 }
                                               «end» := { line := 0, character := 0 } }
                                    new_text := env.format_content
                                      ("<macros>\n<xml name=\"" ++ macroData.name
                                        ++ "\">\n" ++ macroData.content
                                        ++ "\n</xml>\n</macros>") }] },
                    DocumentChange.textDocumentEdit
                      { text_document :=
                          { uri := (env.get_document params.text_document.uri).uri
                            version := (env.get_document params.text_document.uri).version }
                        edits :=
                          [_edit_create_import_macros_section env tool
                             DEFAULT_MACROS_FILENAME,
                           _edit_replace_range_with_macro_expand tool macroData
                             params.range] }] } }] := by
  simp only [create_extract_to_macros_file_actions, h,
    _calculate_external_changes_for_macro_in_new_file]

/-- The tool document of the Strategy-C witness. -/
def toolDoc7 : XmlDocument := { emptyDoc with uri := "file:///d/t.xml", path := "/d/t.xml" }

/-- The tool view of the Strategy-C witness. -/
def tool7 : GalaxyToolXmlDocument := GalaxyToolXmlDocument.from_xml_document toolDoc7

/-- Resolved definitions with no imports, for the Strategy-C witness. -/
def defs7 : ToolMacroDefinitions :=
  { tool_document := toolDoc7, imported_macros := [], tokens := [] }

/-- The macro candidate of the Strategy-C witness. -/
def macro7 : MacroData := { name := "param", content := "<p/>" }

/-- The request parameters of the Strategy-C witness. -/
def params7 : CodeActionParams := { text_document := { uri := "file:///d/t.xml" }, range := noRange }

/-- Witness for C7 at a concrete tool document without imports. -/
theorem claim_C7_witness :
    create_extract_to_macros_file_actions emptyEnv tool7 defs7 macro7 params7 =
      .ok [{ title := "Extract to macro, create and import " ++ DEFAULT_MACROS_FILENAME
             edit :=
               { changes := none
                 document_changes := some
                   [DocumentChange.createFile
                      { uri := pathAsUri (parentPath (stripFileScheme tool7.xml_document.uri)
                          ++ "/" ++ DEFAULT_MACROS_FILENAME) },
                    DocumentChange.textDocumentEdit
                      { text_document :=
                          { uri := pathAsUri (parentPath
                              (stripFileScheme tool7.xml_document.uri)
                              ++ "/" ++ DEFAULT_MACROS_FILENAME)
                            version := 0 }
                        edits := [{ range := { start := { line := 0, character := 0 }
                                               «end» := { line := 0, character := 0 } }
                                    new_text := emptyEnv.format_content
                                      ("<macros>\n<xml name=\"" ++ macro7.name
                                        ++ "\">\n" ++ macro7.content
                                        ++ "\n</xml>\n</macros>") }] },
                    DocumentChange.textDocumentEdit
                      { text_document :=
                          { uri := (emptyEnv.get_document params7.text_document.uri).uri
                            version :=
                              (emptyEnv.get_document params7.text_document.uri).version }
                        edits :=
                          [_edit_create_import_macros_section emptyEnv tool7
                             DEFAULT_MACROS_FILENAME,
                           _edit_replace_range_with_macro_expand tool7 macro7
                             params7.range] }] } }] :=
  claim_C7_new_file_action emptyEnv tool7 defs7 macro7 params7 rfl

/-- C3: a selection whose trimmed text is shorter than 5 characters, or does
not start with `<` and end with `>`, or fails to parse as a standalone
fragment, or parses to a reserved structural root tag, yields an empty
action list without an error; any other selection yields the actions
computed for the `MacroData` candidate whose name is the fragment's root tag
and whose content is the trimmed selection text. -/
theorem claim_C3_selection_validation (env : Env) (xml_document : XmlDocument)
    (params : CodeActionParams) :
    (((pyStrip (xml_document.textInRange params.range)).length < 5 ∨
        ((pyStrip (xml_document.textInRange params.range)).front ≠ '<' ∨
          (pyStrip (xml_document.textInRange params.range)).back ≠ '>')) →
      get_available_refactoring_actions env xml_document params = .ok []) ∧
    (env.fragment_root_tag (pyStrip (xml_document.textInRange params.range)) = none →
      get_available_refactoring_actions env xml_document params = .ok []) ∧
    (∀ tag, env.fragment_root_tag (pyStrip (xml_document.textInRange params.range)) = some tag →
      tag ∈ [TOOL, MACROS, MACRO, XML] →
      get_available_refactoring_actions env xml_document params = .ok []) ∧
    (∀ tag, env.fragment_root_tag (pyStrip (xml_document.textInRange params.range)) = some tag →
      tag ∉ [TOOL, MACROS, MACRO, XML] →
      ¬((pyStrip (xml_document.textInRange params.range)).length < 5 ∨
        ((pyStrip (xml_document.textInRange params.range)).front ≠ '<' ∨
          (pyStrip (xml_document.textInRange params.range)).back ≠ '>')) →
      get_available_refactoring_actions env xml_document params =
        _actions_for_macro env xml_document params
          { name := tag, content := pyStrip (xml_document.textInRange params.range) }) := by
  refine ⟨?_, ?_, ?_, ?_⟩
  · intro h
    exact get_available_eq_empty (get_valid_full_element_tag_reject h)
  · intro h
    by_cases hc : (pyStrip (xml_document.textInRange params.range)).length < 5 ∨
        ((pyStrip (xml_document.textInRange params.range)).front ≠ '<' ∨
          (pyStrip (xml_document.textInRange params.range)).back ≠ '>')
    · exact get_available_eq_empty (get_valid_full_element_tag_reject hc)
    · exact get_available_eq_empty
        ((get_valid_full_element_tag_go hc).trans (get_valid_node_tag_parse_failure h))
  · intro tag h hres
    by_cases hc : (pyStrip (xml_document.textInRange params.range)).length < 5 ∨
        ((pyStrip (xml_document.textInRange params.range)).front ≠ '<' ∨
          (pyStrip (xml_document.textInRange params.range)).back ≠ '>')
    · exact get_available_eq_empty (get_valid_full_element_tag_reject hc)
    · exact get_available_eq_empty
        ((get_valid_full_element_tag_go hc).trans (get_valid_node_tag_reserved h hres))
  · intro tag h hres hc
    exact get_available_eq_actions
      ((get_valid_full_element_tag_go hc).trans (get_valid_node_tag_accept h hres))

/-- The document of the extraction-planner witness: the selected text is a
small well-formed `param` element surrounded by whitespace. -/
def doc3 : XmlDocument := { emptyDoc with textInRange := fun _ => " <param/> " }

/-- The environment of the extraction-planner witness: the fragment parser
recognises exactly the trimmed selection and reports root tag `param`. -/
def env3 : Env :=
  { emptyEnv with
    fragment_root_tag := fun s => if s = "<param/>" then some "param" else none }

/-- The request parameters of the extraction-planner witness. -/
def params3 : CodeActionParams := { text_document := { uri := "file:///d/t.xml" }, range := noRange }

/-- Witness for C3: at a concrete valid selection the produced candidate is
`MacroData` with the fragment's root tag and the trimmed selection text. -/
theorem claim_C3_witness :
    get_available_refactoring_actions env3 doc3 params3 =
      _actions_for_macro env3 doc3 params3 { name := "param", content := "<param/>" } := by
  have h := (claim_C3_selection_validation env3 doc3 params3).2.2.2 "param"
    (by decide) (by decide) (by decide)
  have htrim : pyStrip (doc3.textInRange params3.range) = "<param/>" := by decide
  rw [htrim] at h
  exact h

/-- C2: a parse failure of one imported macros file (the parser collaborator
yields a document whose parse failed) does not make `load_macro_definitions`
propagate a failure: the resolution still returns a `ToolMacroDefinitions`,
and the failed import's entry carries an empty token table, so it
contributes no tokens to the aggregation. -/
theorem claim_C2_parse_failure_nonfatal (env : Env) (tool_xml : XmlDocument)
    (pre post : List XmlElement) (i0 : XmlElement) (n0 : String)
    (hsplit : tool_xml.find_all_elements_with_name IMPORT_TAG = pre ++ i0 :: post)
    (hc : i0.content = some n0) (hn : n0 ≠ "")
    (hex : env.fileExists (_get_tool_directory tool_xml ++ "/" ++ n0) = true)
    (hpf : (env.getParsedDocument
      (pathAsUri (_get_tool_directory tool_xml ++ "/" ++ n0))).parseFailed = true)
    (hpost : ∀ imp ∈ post, keyOfImport imp ≠ some n0)
    (htool : AllNamed (tool_xml.find_all_elements_with_name TOKEN))
    (himps : ∀ imp ∈ tool_xml.find_all_elements_with_name IMPORT_TAG,
      ImportScanOk env (_get_tool_directory tool_xml) imp) :
    ∃ defs, load_macro_definitions env tool_xml = .ok defs ∧
      dictGet defs.imported_macros n0 =
        some (resolvedFile env (_get_tool_directory tool_xml) n0 []) := by
  obtain ⟨toks, htoks⟩ := get_token_definitions_ok_of_named htool
  obtain ⟨files, hfilesRaw⟩ :=
    macroFilesFrom_ok_of_scanOk tool_xml.source himps []
  have hfiles : _get_imported_macro_files_from_tool env tool_xml = .ok files := hfilesRaw
  refine ⟨_, load_unfold_ok htoks hfiles, ?_⟩
  show dictGet files n0 = _
  rw [hsplit] at hfilesRaw
  obtain ⟨mid, h1, h2⟩ := macroFilesFrom_append hfilesRaw
  have htpf : _get_token_definitions
      (env.getParsedDocument
        (pathAsUri (_get_tool_directory tool_xml ++ "/" ++ n0))) = .ok [] :=
    get_token_definitions_parseFailed hpf
  rw [macroFilesFrom_cons_ok (processImport_exists hc hn hex htpf)] at h2
  rw [macroFilesFrom_get_stable h2 hpost, dictGet_dictInsert_self]

/-- The single `import` element of the parse-failure witness. -/
def impEl2 : XmlElement := { nameAttr := none, nameRange := noRange, content := some "m.xml" }

/-- The imported macros file of the parse-failure witness: it fails to
parse, so its (ill-formed) token elements are not exposed. -/
def brokenDoc2 : XmlDocument :=
  { emptyDoc with
    uri := "file:///d/m.xml", path := "/d/m.xml", parseFailed := true
    tokenElements := [{ nameAttr := none, nameRange := noRange, content := none }] }

/-- The tool document of the parse-failure witness. -/
def toolDoc2 : XmlDocument :=
  { emptyDoc with
    uri := "file:///d/t.xml", path := "/d/t.xml"
    importElements := [impEl2] }

/-- The environment of the parse-failure witness: `m.xml` exists and parses
into `brokenDoc2`. -/
def env2 : Env :=
  { emptyEnv with
    fileExists := fun p => p == "/d/m.xml"
    getParsedDocument := fun u => if u = "file:///d/m.xml" then brokenDoc2 else emptyDoc }

/-- Witness for C2 at a concrete tool document with one failing import. -/
theorem claim_C2_witness :
    ∃ defs, load_macro_definitions env2 toolDoc2 = .ok defs ∧
      dictGet defs.imported_macros "m.xml" =
        some (resolvedFile env2 (_get_tool_directory toolDoc2) "m.xml" []) :=
  claim_C2_parse_failure_nonfatal env2 toolDoc2 [] [] impEl2 "m.xml"
    (by decide) (by decide) (by decide) (by decide) (by decide)
    (by intro imp himp; exact absurd himp (List.not_mem_nil imp))
    (by intro e he; exact absurd he (List.not_mem_nil e))
    (by
      intro imp himp
      have hfa : toolDoc2.find_all_elements_with_name IMPORT_TAG = [impEl2] := by decide
      rw [hfa] at himp
      have himp' : imp = impEl2 := List.mem_singleton.mp himp
      subst himp'
      intro n hcn hnn hexn
      have hn' : "m.xml" = n := Option.some.inj hcn
      subst hn'
      decide)

/-- C4: an import whose referenced path does not exist resolves to an
`ImportedMacrosFile` with no uri, no document and an empty token table, the
remaining imports are still resolved (every import key is present in the
map), and `go_to_import_definition` for that file reference yields no
location. -/
theorem claim_C4_missing_file (env : Env) (tool_xml : XmlDocument)
    (pre post : List XmlElement) (i0 : XmlElement) (n0 : String)
    (hsplit : tool_xml.find_all_elements_with_name IMPORT_TAG = pre ++ i0 :: post)
    (hc : i0.content = some n0) (hn : n0 ≠ "")
    (hex : env.fileExists (_get_tool_directory tool_xml ++ "/" ++ n0) = false)
    (hpost : ∀ imp ∈ post, keyOfImport imp ≠ some n0)
    (htool : AllNamed (tool_xml.find_all_elements_with_name TOKEN))
    (himps : ∀ imp ∈ tool_xml.find_all_elements_with_name IMPORT_TAG,
      ImportScanOk env (_get_tool_directory tool_xml) imp) :
    ∃ defs, load_macro_definitions env tool_xml = .ok defs ∧
      dictGet defs.imported_macros n0 = some (unresolvedFile n0) ∧
      go_to_import_definition defs n0 = none ∧
      (∀ imp ∈ tool_xml.find_all_elements_with_name IMPORT_TAG, ∀ m,
        keyOfImport imp = some m → (dictGet defs.imported_macros m).isSome = true) := by
  obtain ⟨toks, htoks⟩ := get_token_definitions_ok_of_named htool
  obtain ⟨files, hfilesRaw⟩ :=
    macroFilesFrom_ok_of_scanOk tool_xml.source himps []
  have hfiles : _get_imported_macro_files_from_tool env tool_xml = .ok files := hfilesRaw
  have hgetn0 : dictGet files n0 = some (unresolvedFile n0) := by
    have hfilesSplit := hfilesRaw
    rw [hsplit] at hfilesSplit
    obtain ⟨mid, h1, h2⟩ := macroFilesFrom_append hfilesSplit
    rw [macroFilesFrom_cons_ok (processImport_not_exists hc hn hex)] at h2
    rw [macroFilesFrom_get_stable h2 hpost, dictGet_dictInsert_self]
  refine ⟨_, load_unfold_ok htoks hfiles, hgetn0, ?_, ?_⟩
  · show go_to_import_definition _ n0 = none
    simp only [go_to_import_definition, hgetn0, unresolvedFile]
  · intro imp himp m hkey
    exact macroFilesFrom_key_present hfilesRaw himp hkey

/-- The missing `import` element of the missing-file witness. -/
def impMiss4 : XmlElement :=
  { nameAttr := none, nameRange := noRange, content := some "miss.xml" }

/-- The resolvable `import` element of the missing-file witness. -/
def impOk4 : XmlElement :=
  { nameAttr := none, nameRange := noRange, content := some "ok.xml" }

/-- The existing imported file of the missing-file witness. -/
def okDoc4 : XmlDocument :=
  { emptyDoc with uri := "file:///d/ok.xml", path := "/d/ok.xml" }

/-- The tool document of the missing-file witness: it imports a missing file
first and an existing file second. -/
def toolDoc4 : XmlDocument :=
  { emptyDoc with
    uri := "file:///d/t.xml", path := "/d/t.xml"
    importElements := [impMiss4, impOk4] }

/-- The environment of the missing-file witness: only `ok.xml` exists. -/
def env4 : Env :=
  { emptyEnv with
    fileExists := fun p => p == "/d/ok.xml"
    getParsedDocument := fun u => if u = "file:///d/ok.xml" then okDoc4 else emptyDoc }

/-- Witness for C4 at a concrete tool document with one missing and one
existing import. -/
theorem claim_C4_witness :
    ∃ defs, load_macro_definitions env4 toolDoc4 = .ok defs ∧
      dictGet defs.imported_macros "miss.xml" = some (unresolvedFile "miss.xml") ∧
      go_to_import_definition defs "miss.xml" = none ∧
      (∀ imp ∈ toolDoc4.find_all_elements_with_name IMPORT_TAG, ∀ m,
        keyOfImport imp = some m → (dictGet defs.imported_macros m).isSome = true) :=
  claim_C4_missing_file env4 toolDoc4 [] [impOk4] impMiss4 "miss.xml"
    (by decide) (by decide) (by decide) (by decide)
    (by decide)
    (by intro e he; exact absurd he (List.not_mem_nil e))
    (by
      intro imp himp
      have hfa : toolDoc4.find_all_elements_with_name IMPORT_TAG = [impMiss4, impOk4] := by
        decide
      rw [hfa] at himp
      rcases List.mem_cons.mp himp with h | h
      · subst h
        intro n hcn hnn hexn
        have hn' : "miss.xml" = n := Option.some.inj hcn
        subst hn'
        exact absurd hexn (by decide)
      · have h' : imp = impOk4 := List.mem_singleton.mp h
        subst h'
        intro n hcn hnn hexn
        have hn' : "ok.xml" = n := Option.some.inj hcn
        subst hn'
        decide)

/-- C5: when the tool document declares token `x` and imports two macro
files, in this order, that both declare `x`, the aggregated table of
`load_macro_definitions` maps `x` to the second import's `TokenDefinition`:
the merge starts from the tool's own table, and each import overwrites
colliding keys in encounter order (last writer wins). -/
theorem claim_C5_last_import_wins (env : Env) (tool_xml : XmlDocument)
    (i1 i2 : XmlElement) (n1 n2 x : String)
    (toolToks e1tks e2tks : Dict TokenDefinition) (d d0 d1 : TokenDefinition)
    (hsplit : tool_xml.find_all_elements_with_name IMPORT_TAG = [i1, i2])
    (hc1 : i1.content = some n1) (hn1 : n1 ≠ "")
    (hc2 : i2.content = some n2) (hn2 : n2 ≠ "") (hne : n1 ≠ n2)
    (hex1 : env.fileExists (_get_tool_directory tool_xml ++ "/" ++ n1) = true)
    (hex2 : env.fileExists (_get_tool_directory tool_xml ++ "/" ++ n2) = true)
    (ht1 : _get_token_definitions (env.getParsedDocument
      (pathAsUri (_get_tool_directory tool_xml ++ "/" ++ n1))) = .ok e1tks)
    (ht2 : _get_token_definitions (env.getParsedDocument
      (pathAsUri (_get_tool_directory tool_xml ++ "/" ++ n2))) = .ok e2tks)
    (htool : _get_token_definitions tool_xml = .ok toolToks)
    (hxtool : dictGet toolToks x = some d0)
    (hx1 : dictGet e1tks x = some d1)
    (hx2 : dictGet e2tks x = some d) :
    ∃ defs, load_macro_definitions env tool_xml = .ok defs ∧
      dictGet defs.imported_macros n2 =
        some (resolvedFile env (_get_tool_directory tool_xml) n2 e2tks) ∧
      dictGet defs.tokens x = some d := by
  have hfiles : _get_imported_macro_files_from_tool env tool_xml =
      .ok [(n1, resolvedFile env (_get_tool_directory tool_xml) n1 e1tks),
           (n2, resolvedFile env (_get_tool_directory tool_xml) n2 e2tks)] := by
    show macroFilesFrom env (_get_tool_directory tool_xml) tool_xml.source
        (tool_xml.find_all_elements_with_name IMPORT_TAG) [] = _
    rw [hsplit, macroFilesFrom_cons_ok (processImport_exists hc1 hn1 hex1 ht1),
      macroFilesFrom_cons_ok (processImport_exists hc2 hn2 hex2 ht2),
      macroFilesFrom_nil, dictInsert_nil, dictInsert_cons, if_neg hne, dictInsert_nil]
  refine ⟨_, load_unfold_ok htool hfiles, ?_, ?_⟩
  · show dictGet [(n1, resolvedFile env (_get_tool_directory tool_xml) n1 e1tks),
        (n2, resolvedFile env (_get_tool_directory tool_xml) n2 e2tks)] n2 = _
    rw [dictGet_cons, if_neg hne, dictGet_cons, if_pos rfl]
  · show dictGet (dictUpdate (dictUpdate toolToks e1tks) e2tks) x = some d
    exact dictGet_dictUpdate_of_mem _ (get_token_definitions_nodup ht2) hx2

/-- The first import element of the last-import-wins witness. -/
def impA5 : XmlElement := { nameAttr := none, nameRange := noRange, content := some "a.xml" }

/-- The second import element of the last-import-wins witness. -/
def impB5 : XmlElement := { nameAttr := none, nameRange := noRange, content := some "b.xml" }

/-- The name range of the token declared by the first import. -/
def rngA5 : Range := { start := { line := 1, character := 0 }, «end» := { line := 1, character := 5 } }

/-- The name range of the token declared by the second import. -/
def rngB5 : Range := { start := { line := 2, character := 0 }, «end» := { line := 2, character := 5 } }

/-- The first imported macros file: declares `@X`. -/
def docA5 : XmlDocument :=
  { emptyDoc with
    uri := "file:///d/a.xml", path := "/d/a.xml"
    tokenElements := [{ nameAttr := some "@X", nameRange := rngA5, content := none }] }

/-- The second imported macros file: also declares `@X`. -/
def docB5 : XmlDocument :=
  { emptyDoc with
    uri := "file:///d/b.xml", path := "/d/b.xml"
    tokenElements := [{ nameAttr := some "@X", nameRange := rngB5, content := none }] }

/-- The tool document of the last-import-wins witness: declares `@X` itself
and imports `a.xml` then `b.xml`. -/
def toolDoc5 : XmlDocument :=
  { emptyDoc with
    uri := "file:///d/t.xml", path := "/d/t.xml"
    tokenElements := [{ nameAttr := some "@X", nameRange := noRange, content := none }]
    importElements := [impA5, impB5] }

/-- The environment of the last-import-wins witness. -/
def env5 : Env :=
  { emptyEnv with
    fileExists := fun p => p == "/d/a.xml" || p == "/d/b.xml"
    getParsedDocument := fun u =>
      if u = "file:///d/a.xml" then docA5
      else if u = "file:///d/b.xml" then docB5
      else emptyDoc }

/-- The second import's token definition for `X`, the expected winner. -/
def tokB5 : TokenDefinition :=
  { name := "X", location := { uri := "file:///d/b.xml", range := rngB5 } }

/-- Witness for C5 at a concrete tool document with two colliding imports. -/
theorem claim_C5_witness :
    ∃ defs, load_macro_definitions env5 toolDoc5 = .ok defs ∧
      dictGet defs.imported_macros "b.xml" =
        some (resolvedFile env5 (_get_tool_directory toolDoc5) "b.xml" [("X", tokB5)]) ∧
      dictGet defs.tokens "X" = some tokB5 :=
  claim_C5_last_import_wins env5 toolDoc5 impA5 impB5 "a.xml" "b.xml" "X"
    [("X", { name := "X", location := { uri := "file:///d/t.xml", range := noRange } })]
    [("X", { name := "X", location := { uri := "file:///d/a.xml", range := rngA5 } })]
    [("X", tokB5)] tokB5
    { name := "X", location := { uri := "file:///d/t.xml", range := noRange } }
    { name := "X", location := { uri := "file:///d/a.xml", range := rngA5 } }
    (by decide) (by decide) (by decide) (by decide) (by decide) (by decide)
    (by decide) (by decide) rfl rfl rfl (by decide) (by decide) (by decide)

/-- C6: for a successful resolution, every token-declaring element of the
tool document with declared name `n` yields the table key `n` with its sigil
characters stripped, and no key of the aggregated table nor of any import's
token table contains the sigil character. -/
theorem claim_C6_sigil_stripped (env : Env) (tool_xml : XmlDocument)
    (defs : ToolMacroDefinitions)
    (hload : load_macro_definitions env tool_xml = .ok defs) :
    (∀ e ∈ tool_xml.find_all_elements_with_name TOKEN, ∀ n, e.nameAttr = some n →
      (dictGet defs.tokens (removeSigil n)).isSome = true) ∧
    (∀ k ∈ dictKeys defs.tokens, '@' ∉ k.data) ∧
    (∀ p ∈ defs.imported_macros, ∀ k ∈ dictKeys p.2.tokens, '@' ∉ k.data) := by
  cases htoks : _get_token_definitions tool_xml with
  | error msg =>
    rw [load_error_of_toks_error htoks] at hload
    exact absurd hload (by simp)
  | ok toks =>
  cases hfiles : _get_imported_macro_files_from_tool env tool_xml with
  | error msg =>
    rw [load_error_of_files_error htoks hfiles] at hload
    exact absurd hload (by simp)
  | ok files =>
  rw [load_unfold_ok htoks hfiles] at hload
  have hdefs := Except.ok.inj hload
  subst hdefs
  refine ⟨?_, ?_, ?_⟩
  · intro e he n hn
    show (dictGet ((dictValues files).foldl
      (fun acc file => dictUpdate acc file.tokens) toks) (removeSigil n)).isSome = true
    exact foldUpdate_isSome _ _ (tokenDefsFrom_contains htoks he hn)
  · show ∀ k ∈ dictKeys ((dictValues files).foldl
      (fun acc file => dictUpdate acc file.tokens) toks), '@' ∉ k.data
    refine foldUpdate_sigilFree (get_token_definitions_sigilFree htoks) ?_
    intro f hf
    obtain ⟨p, hp, hpf⟩ := List.mem_map.mp hf
    rcases macroFilesFrom_mem hfiles hp with h | h | ⟨doc, hdoc⟩
    · exact absurd h (List.not_mem_nil p)
    · intro k hk
      rw [← hpf, h] at hk
      exact absurd hk (List.not_mem_nil k)
    · rw [← hpf]
      exact get_token_definitions_sigilFree hdoc
  · intro p hp k hk
    rcases macroFilesFrom_mem hfiles hp with h | h | ⟨doc, hdoc⟩
    · exact absurd h (List.not_mem_nil p)
    · rw [h] at hk
      exact absurd hk (List.not_mem_nil k)
    · exact get_token_definitions_sigilFree hdoc k hk

/-- The tool document of the sigil witness: declares the token `@FOO`. -/
def tool6 : XmlDocument :=
  { emptyDoc with
    uri := "file:///d/t.xml", path := "/d/t.xml"
    tokenElements := [{ nameAttr := some "@FOO", nameRange := noRange, content := none }] }

/-- The resolution result of the sigil witness: `@FOO` is recorded under the
key `FOO`. -/
def defs6 : ToolMacroDefinitions :=
  { tool_document := tool6
    imported_macros := []
    tokens := [("FOO", { name := "FOO"
                         location := { uri := "file:///d/t.xml", range := noRange } })] }

/-- Witness for C6 at a concrete tool document declaring `@FOO`. -/
theorem claim_C6_witness :
    (∀ e ∈ tool6.find_all_elements_with_name TOKEN, ∀ n, e.nameAttr = some n →
      (dictGet defs6.tokens (removeSigil n)).isSome = true) ∧
    (∀ k ∈ dictKeys defs6.tokens, '@' ∉ k.data) ∧
    (∀ p ∈ defs6.imported_macros, ∀ k ∈ dictKeys p.2.tokens, '@' ∉ k.data) :=
  claim_C6_sigil_stripped emptyEnv tool6 defs6 rfl

/-- C10: resolution is only total when every scanned token-declaring element
carries a name attribute: a token element without one — in the tool document
itself or in any imported document that exists and parses — makes
`load_macro_definitions` raise an error instead of skipping the element or
returning a result. -/
theorem claim_C10_unnamed_token_raises (env : Env) (tool_xml : XmlDocument)
    (h : (∃ e ∈ tool_xml.find_all_elements_with_name TOKEN, e.nameAttr = none) ∨
      (∃ imp ∈ tool_xml.find_all_elements_with_name IMPORT_TAG, ∃ n,
        imp.content = some n ∧ n ≠ "" ∧
        env.fileExists (_get_tool_directory tool_xml ++ "/" ++ n) = true ∧
        ∃ e ∈ (env.getParsedDocument
            (pathAsUri (_get_tool_directory tool_xml ++ "/" ++ n))).find_all_elements_with_name
            TOKEN,
          e.nameAttr = none)) :
    ∃ msg, load_macro_definitions env tool_xml = .error msg := by
  rcases h with ⟨e, he, hen⟩ | ⟨imp, himp, n, hc, hn, hex, e, he, hen⟩
  · obtain ⟨msg, hmsg⟩ := tokenDefsFrom_error_of_unnamed tool_xml.uri he hen []
    exact ⟨msg, load_error_of_toks_error hmsg⟩
  · cases htoks : _get_token_definitions tool_xml with
    | error msg => exact ⟨msg, load_error_of_toks_error htoks⟩
    | ok toks =>
      obtain ⟨msg, hmsg⟩ := tokenDefsFrom_error_of_unnamed
        (env.getParsedDocument
          (pathAsUri (_get_tool_directory tool_xml ++ "/" ++ n))).uri he hen []
      obtain ⟨msg', hfiles⟩ := macroFilesFrom_error_of_scan_error himp hc hn hex hmsg []
      exact ⟨msg', load_error_of_files_error htoks hfiles⟩

/-- The tool document of the unnamed-token witness: its only token element
has no name attribute. -/
def tool10 : XmlDocument :=
  { emptyDoc with
    uri := "file:///d/t.xml", path := "/d/t.xml"
    tokenElements := [{ nameAttr := none, nameRange := noRange, content := none }] }

/-- Witness for C10 at a concrete tool document with an unnamed token. -/
theorem claim_C10_witness :
    ∃ msg, load_macro_definitions emptyEnv tool10 = .error msg :=
  claim_C10_unnamed_token_raises emptyEnv tool10
    (Or.inl ⟨{ nameAttr := none, nameRange := noRange, content := none },
      by decide, rfl⟩)

/-! ### C1: Strategy-B production over the imported-macros map -/

theorem strategyBActions_cons_ok {env : Env} {tool : GalaxyToolXmlDocument}
    {macroData : MacroData} {params : CodeActionParams} {fn : String}
    {mfd : ImportedMacrosFile} {rest : List (String × ImportedMacrosFile)}
    {acc : List CodeAction} {ch : Dict (List TextEdit)}
    (hcalc : _calculate_external_changes_for_macro env tool mfd macroData params
      = .ok ch) :
    strategyBActions env tool macroData params ((fn, mfd) :: rest) acc =
      strategyBActions env tool macroData params rest
        (acc ++ [{ title := "Extract to macro in " ++ fn
                   edit := { changes := some ch, document_changes := none } }]) := by
  simp only [strategyBActions, hcalc]

theorem strategyBActions_ok_of_resolved {env : Env} {tool : GalaxyToolXmlDocument}
    {macroData : MacroData} {params : CodeActionParams}
    {entries : List (String × ImportedMacrosFile)}
    (hall : ∀ p ∈ entries, p.2.document.isSome = true) :
    ∀ acc, ∃ acts, strategyBActions env tool macroData params entries acc = .ok acts ∧
      acts.map CodeAction.title =
        acc.map CodeAction.title ++
          entries.map (fun p => "Extract to macro in " ++ p.1) ∧
      ∀ a ∈ acts, a ∈ acc ∨
        (a.edit.changes.isSome = true ∧ a.edit.document_changes = none) := by
  induction entries with
  | nil =>
    intro acc
    exact ⟨acc, rfl, by simp, fun a ha => Or.inl ha⟩
  | cons p rest ih =>
    intro acc
    obtain ⟨fn, mfd⟩ := p
    have hd : mfd.document.isSome = true := hall (fn, mfd) (List.mem_cons_self _ _)
    obtain ⟨doc, hdoc⟩ := Option.isSome_iff_exists.mp hd
    have hcalc : ∃ ch, _calculate_external_changes_for_macro env tool mfd macroData
        params = .ok ch := by
      simp only [ _calculate_external_changes_for_macro, hdoc]
      exact ⟨_, rfl⟩
    obtain ⟨ch, hcalc⟩ := hcalc
    obtain ⟨acts, hok, hmap, hmem⟩ :=
      ih (fun q hq => hall q (List.mem_cons_of_mem _ hq))
        (acc ++ [{ title := "Extract to macro in " ++ fn
                   edit := { changes := some ch, document_changes := none } }])
    refine ⟨acts, by rw [strategyBActions_cons_ok hcalc]; exact hok, ?_, ?_⟩
    · rw [hmap]
      simp [List.map_append]
    · intro a ha
      rcases hmem a ha with h | h
      · rcases List.mem_append.mp h with h' | h'
        · exact Or.inl h'
        · refine Or.inr ?_
          rw [List.mem_singleton.mp h']
          exact ⟨rfl, rfl⟩
      · exact Or.inr h

/-- C1 (amended): when every entry of a non-empty `importedMacros` map has a
resolved document, `create_extract_to_macros_file_actions` produces exactly
one Strategy-B edit set per entry, in import order; an entry whose document
did not resolve is not excluded — reading `.root` on its absent document
makes the whole call raise, aborting the other edit sets (see the
counterexample). -/
theorem claim_C1_strategyB_per_entry (env : Env) (tool : GalaxyToolXmlDocument)
    (defs : ToolMacroDefinitions) (macroData : MacroData) (params : CodeActionParams)
    (hne : defs.imported_macros ≠ [])
    (hall : ∀ p ∈ defs.imported_macros, p.2.document.isSome = true) :
    ∃ acts, create_extract_to_macros_file_actions env tool defs macroData params
      = .ok acts ∧
      acts.map CodeAction.title =
        defs.imported_macros.map (fun p => "Extract to macro in " ++ p.1) ∧
      acts.length = defs.imported_macros.length ∧
      ∀ a ∈ acts, a.edit.changes.isSome = true ∧ a.edit.document_changes = none := by
  cases him : defs.imported_macros with
  | nil => exact absurd him hne
  | cons p entries =>
    have hall' : ∀ q ∈ p :: entries, q.2.document.isSome = true := him ▸ hall
    obtain ⟨acts, hok, hmap, hmem⟩ := strategyBActions_ok_of_resolved hall' []
    have hmap' : acts.map CodeAction.title =
        (p :: entries).map (fun q => "Extract to macro in " ++ q.1) := by
      rw [hmap]
      simp
    refine ⟨acts, ?_, ?_, ?_, ?_⟩
    · simp only [create_extract_to_macros_file_actions, him]
      exact hok
    · exact hmap'
    · have hl := congrArg List.length hmap'
      rw [List.length_map, List.length_map] at hl
      exact hl
    · intro a ha
      rcases hmem a ha with h | h
      · exact absurd h (List.not_mem_nil a)
      · exact h

/-- The first (resolvable) import element of the C1 fixtures. -/
def impA1 : XmlElement := { nameAttr := none, nameRange := noRange, content := some "a.xml" }

/-- The second (missing) import element of the C1 fixtures. -/
def impB1 : XmlElement := { nameAttr := none, nameRange := noRange, content := some "b.xml" }

/-- The existing imported file of the C1 fixtures. -/
def docA1 : XmlDocument :=
  { emptyDoc with uri := "file:///d/a.xml", path := "/d/a.xml" }

/-- The tool document of the C1 fixtures: imports `a.xml` (existing) and
`b.xml` (missing). -/
def toolDoc1 : XmlDocument :=
  { emptyDoc with
    uri := "file:///d/t.xml", path := "/d/t.xml"
    importElements := [impA1, impB1] }

/-- The environment of the C1 fixtures: only `a.xml` exists. -/
def env1 : Env :=
  { emptyEnv with
    fileExists := fun p => p == "/d/a.xml"
    getParsedDocument := fun u => if u = "file:///d/a.xml" then docA1 else emptyDoc }

/-- The tool view of the C1 fixtures. -/
def tool1 : GalaxyToolXmlDocument := GalaxyToolXmlDocument.from_xml_document toolDoc1

/-- The macro candidate of the C1 fixtures. -/
def macro1 : MacroData := { name := "p", content := "<p/>" }

/-- The request parameters of the C1 fixtures. -/
def params1 : CodeActionParams := { text_document := { uri := "file:///d/t.xml" }, range := noRange }

/-- The resolution result of the C1 counterexample: `a.xml` resolved,
`b.xml` unresolved. -/
def defs1 : ToolMacroDefinitions :=
  { tool_document := toolDoc1
    imported_macros := [("a.xml", resolvedFile env1 "/d" "a.xml" []),
                        ("b.xml", unresolvedFile "b.xml")]
    tokens := [] }

/-- Counterexample for C1 as stated: the resolved definitions contain one
resolved and one unresolved import, yet `create_extract_to_macros_file_actions`
does not produce one edit set for the resolved entry while excluding the
unresolved one — it raises an `AttributeError`, aborting all edit sets. -/
theorem claim_C1_counterexample :
    load_macro_definitions env1 toolDoc1 = .ok defs1 ∧
    defs1.imported_macros.map (fun p => p.2.document.isSome) = [true, false] ∧
    create_extract_to_macros_file_actions env1 tool1 defs1 macro1 params1 =
      .error "AttributeError: NoneType has no attribute root" :=
  ⟨rfl, rfl, rfl⟩

/-- The all-resolved definitions of the C1 witness. -/
def defsW1 : ToolMacroDefinitions :=
  { tool_document := toolDoc1
    imported_macros := [("a.xml", resolvedFile env1 "/d" "a.xml" []),
                        ("c.xml", resolvedFile env1 "/d" "c.xml" [])]
    tokens := [] }

/-- Witness for the amended C1 at a map with two resolved entries. -/
theorem claim_C1_witness :
    ∃ acts, create_extract_to_macros_file_actions env1 tool1 defsW1 macro1 params1
      = .ok acts ∧
      acts.map CodeAction.title =
        defsW1.imported_macros.map (fun p => "Extract to macro in " ++ p.1) ∧
      acts.length = defsW1.imported_macros.length ∧
      ∀ a ∈ acts, a.edit.changes.isSome = true ∧ a.edit.document_changes = none :=
  claim_C1_strategyB_per_entry env1 tool1 defsW1 macro1 params1
    (by simp [defsW1]) (by decide)

end GLS
